import Mathlib

/-!
Verification of the Fantasy Squad Tactics rules engine.

This file gives a shallow embedding of the engine found in `main.py`,
`game_classes.py`, `effects_system.py` and `special_abilities.py`, and proves
(or refutes) the behavioural properties stated in the design document.

Conventions of the embedding:
- Python dictionaries keyed by unit id become association structures over
  `List`; iteration order of `dict.items()` / `dict.values()` is list order.
- In-place mutation of shared `GamePiece` objects becomes an update of the
  unit registry (a `List GamePiece`) keyed by `unit_id`; Python identity
  comparisons (`u != unit`) are rendered as `unit_id` disequality.
- Machine integers are `Int` (HP, damage, effect magnitudes) or `Nat`
  (movement points, ranges); `float('inf')` movement cost becomes `none`.
- Fallible operations (`raise ValueError`) return `Except String`.
-/

set_option linter.unusedVariables false

/-- The eight terrain kinds of the game map. -/
inductive Terrain where
  | Plains
  | Forest
  | Mountain
  | Lake
  | River
  | Farm
  | Village
  | City
deriving DecidableEq, Repr

/-- A board coordinate `(row, col)`.  Neighbour generation can step outside
the board, so coordinates are integers and bounds are checked separately. -/
abbrev Pos := Int × Int

/-- `GamePiece` from `game_classes.py`. -/
structure GamePiece where
  unit_id : String
  unit_class : String
  name : String
  hp : Int
  move : Nat
  moves_remaining : Nat
  range : Nat
  atk : Int
  special : String
  position : Pos
  terrain : Terrain
  faction : String
  has_attacked : Bool
deriving DecidableEq, Repr

/-- The terrain map: a `height × width` grid of terrain tags
(`terrain_map` in `main.py`, a numpy array of strings). -/
structure Grid where
  height : Nat
  width : Nat
  cell : Nat → Nat → Terrain

/-- `terrain_map[row, col]` (only ever used after a bounds check, so the
`toNat` coercion is exercised on non-negative coordinates). -/
def gridAt (g : Grid) (p : Pos) : Terrain :=
  g.cell p.1.toNat p.2.toNat

/-- `0 <= row < height and 0 <= col < width`. -/
def inBounds (g : Grid) (p : Pos) : Bool :=
  0 ≤ p.1 && p.1 < (g.height : Int) && 0 ≤ p.2 && p.2 < (g.width : Int)

/-- Character-list infix test (helper for `containsStr`). -/
def charsContain (pat : List Char) : List Char → Bool
  | [] => pat.isEmpty
  | c :: rest => pat.isPrefixOf (c :: rest) || charsContain pat rest

/-- Python's substring test `pat in s`. -/
def containsStr (pat s : String) : Bool :=
  charsContain pat.toList s.toList

/-- The characters before the first occurrence of `sep`
(helper for `ability_name_of`, mirroring `s.split(sep)[0]`). -/
def charsBeforeSep (sep : List Char) : List Char → List Char
  | [] => []
  | c :: rest =>
    if sep.isPrefixOf (c :: rest) then []
    else c :: charsBeforeSep sep rest

/-- `unit.special.split(" - ")[0] if " - " in unit.special else unit.special`:
the ability name is the part of the special label before a " - " separator. -/
def ability_name_of (special : String) : String :=
  if containsStr " - " special then String.mk (charsBeforeSep " - ".toList special.toList)
  else special

/-- Chebyshev distance `max(abs(r1-r2), abs(c1-c2))`. -/
def chebyshev (p q : Pos) : Nat :=
  max (p.1 - q.1).natAbs (p.2 - q.2).natAbs

/-! ## Effects system (`effects_system.py`) -/

/-- `EffectType`. -/
inductive EffectType where
  | damage_reduction
  | range_bonus
  | movement_bonus
  | attack_bonus
  | damage_over_time
  | movement_restriction
  | attack_restriction
  | first_strike
  | regeneration
  | shield
deriving DecidableEq, Repr

/-- `EffectDuration`. -/
inductive EffectDuration where
  | permanent
  | until_next_turn
  | until_end_of_turn
  | conditional
  | timed
deriving DecidableEq, Repr

/-- `Effect` dataclass. -/
structure Effect where
  effect_type : EffectType
  name : String
  description : String
  value : Int
  duration : EffectDuration
  turns_remaining : Int := 0
  source_unit_id : Option String := none
  condition : Option String := none
deriving DecidableEq, Repr

/-- `EffectsSystem.get_effect`: first effect with the given name. -/
def get_effect (effects : List Effect) (nm : String) : Option Effect :=
  effects.find? (fun e => e.name == nm)

/-- `EffectsSystem.remove_effect`: delete the first effect with the given
name; the flag reports whether anything was removed. -/
def remove_effect (effects : List Effect) (nm : String) : List Effect × Bool :=
  match effects with
  | [] => ([], false)
  | e :: rest =>
    if e.name == nm then (rest, true)
    else
      let r := remove_effect rest nm
      (e :: r.1, r.2)

/-- Replace the first effect with the given name by `f` of it (the Python
code mutates the object returned by `get_effect` in place). -/
def update_first_effect (effects : List Effect) (nm : String) (f : Effect → Effect) :
    List Effect :=
  match effects with
  | [] => []
  | e :: rest =>
    if e.name == nm then f e :: rest
    else e :: update_first_effect rest nm f

/-- `EffectsSystem.add_effect`: refresh an existing effect of the same name
(timed: max of remaining turns; otherwise: overwrite the value), else append. -/
def add_effect (effects : List Effect) (eff : Effect) : List Effect :=
  match get_effect effects eff.name with
  | some _ =>
    update_first_effect effects eff.name (fun ex =>
      if eff.duration = EffectDuration.timed then
        { ex with turns_remaining := max ex.turns_remaining eff.turns_remaining }
      else
        { ex with value := eff.value })
  | none => effects ++ [eff]

/-- `EffectsSystem.get_total_effect_value`. -/
def get_total_effect_value (effects : List Effect) (t : EffectType) : Int :=
  (effects.filter (fun e => e.effect_type == t)).foldl (fun acc e => acc + e.value) 0

/-- `EffectsSystem.process_turn_start`: scan all effects (emitting
regeneration / damage-over-time messages and counting down timed effects),
collect the names to drop, then remove them after the scan with an
"expired" message each. -/
def process_turn_start (effects : List Effect) : List Effect × List String :=
  let scanMsgs := effects.filterMap (fun e =>
    if e.effect_type = EffectType.regeneration then
      some ("Unit regenerates " ++ toString e.value ++ " HP")
    else if e.effect_type = EffectType.damage_over_time then
      some ("Unit takes " ++ toString e.value ++ " damage from " ++ e.name)
    else none)
  let scanned := effects.map (fun e =>
    if e.duration = EffectDuration.timed then
      { e with turns_remaining := e.turns_remaining - 1 }
    else e)
  let toRemove := effects.filterMap (fun e =>
    if e.duration = EffectDuration.timed then
      (if e.turns_remaining - 1 ≤ 0 then some e.name else none)
    else if e.duration = EffectDuration.until_next_turn then some e.name
    else none)
  toRemove.foldl
    (fun acc nm => ((remove_effect acc.1 nm).1, acc.2 ++ [nm ++ " effect expired"]))
    (scanned, scanMsgs)

/-- `EffectsSystem.process_turn_end`: drop all until-end-of-turn effects,
same two-phase scan/remove pattern. -/
def process_turn_end (effects : List Effect) : List Effect × List String :=
  let toRemove := effects.filterMap (fun e =>
    if e.duration = EffectDuration.until_end_of_turn then some e.name else none)
  toRemove.foldl
    (fun acc nm => ((remove_effect acc.1 nm).1, acc.2 ++ [nm ++ " effect expired"]))
    (effects, [])

/-- The "Sword & Board Defense" conditional effect created by
`check_conditional_effects`. -/
def sword_board_defense : Effect :=
  { effect_type := EffectType.damage_reduction
    name := "Sword & Board Defense"
    description := "Negates the first point of damage taken next turn"
    value := 1
    duration := EffectDuration.conditional
    condition := some "hasnt_moved" }

/-- The "Trusty Steed Bonus" conditional effect created by
`check_conditional_effects`. -/
def trusty_steed_bonus : Effect :=
  { effect_type := EffectType.movement_bonus
    name := "Trusty Steed Bonus"
    description := "+1 movement this turn"
    value := 1
    duration := EffectDuration.conditional
    condition := some "hasnt_attacked" }

/-- The `effects_to_add` list collected by `check_conditional_effects`:
"Sword & Board Defense" when a Sword & Board unit has not moved and lacks
the effect; "Trusty Steed Bonus" when a Trusty Steed unit has not attacked
and lacks the effect. -/
def cc_to_add (unit : GamePiece) (effects : List Effect) : List Effect :=
  (if containsStr "Sword & Board" unit.special &&
      (unit.moves_remaining == unit.move) &&
      (get_effect effects "Sword & Board Defense").isNone then
     [sword_board_defense] else []) ++
  (if containsStr "Trusty Steed" unit.special &&
      !unit.has_attacked &&
      (get_effect effects "Trusty Steed Bonus").isNone then
     [trusty_steed_bonus] else [])

/-- The `effects_to_remove` list collected by `check_conditional_effects`:
the conditional effect names whose condition no longer holds. -/
def cc_to_remove (unit : GamePiece) (effects : List Effect) : List String :=
  (if containsStr "Sword & Board" unit.special &&
      !(unit.moves_remaining == unit.move) &&
      (get_effect effects "Sword & Board Defense").isSome then
     ["Sword & Board Defense"] else []) ++
  (if containsStr "Trusty Steed" unit.special &&
      unit.has_attacked &&
      (get_effect effects "Trusty Steed Bonus").isSome then
     ["Trusty Steed Bonus"] else [])

/-- `EffectsSystem.check_conditional_effects`: re-derive the
"Sword & Board Defense" and "Trusty Steed Bonus" conditional effects from
the unit's current flags, collecting additions and removals first and
applying them afterwards. -/
def check_conditional_effects (unit : GamePiece) (effects : List Effect) : List Effect :=
  let effects1 := (cc_to_add unit effects).foldl add_effect effects
  (cc_to_remove unit effects).foldl (fun es nm => (remove_effect es nm).1) effects1

/-- `can_unit_attack` from `effects_system.py`: a unit that has attacked
cannot attack again, and a "Trusty Steed" unit currently holding the
"Trusty Steed Bonus" effect cannot attack either. -/
def can_unit_attack (unit : GamePiece) (effects : List Effect) : Bool :=
  if unit.has_attacked then false
  else if containsStr "Trusty Steed" unit.special &&
          (get_effect effects "Trusty Steed Bonus").isSome then false
  else true

/-! ## Ability registry and resolver (`special_abilities.py`) -/

/-- One entry of `SpecialAbilitySystem.ability_registry` (the fields the
engine actually reads: type, optional range, condition tag, effect kind). -/
structure AbilityInfo where
  atype : String
  arange : Option Nat := none
  condition : Option String := none
  effect : String
deriving DecidableEq, Repr

/-- `SpecialAbilitySystem.get_ability_info`: the static ability catalog. -/
def get_ability_info (nm : String) : Option AbilityInfo :=
  if nm = "Spotter" then some { atype := "passive", arange := some 4, effect := "range_boost" }
  else if nm = "Double tap" then some { atype := "triggered", effect := "bonus_attack" }
  else if nm = "Sword & Board" then
    some { atype := "conditional_passive", condition := some "no_movement", effect := "damage_reduction" }
  else if nm = "Trusty Steed" then
    some { atype := "conditional_passive", condition := some "no_attack", effect := "movement_boost" }
  else if nm = "All She\x27s Got" then
    some { atype := "active", effect := "range_boost_with_penalty" }
  else if nm = "For the King!" then some { atype := "active", arange := some 4, effect := "ally_boost" }
  else if nm = "Strategic Savant" then some { atype := "active", arange := some 4, effect := "tactical_strike" }
  else if nm = "Vigilance" then some { atype := "active", arange := some 2, effect := "first_strike_aura" }
  else if nm = "Lure" then some { atype := "active", arange := some 5, effect := "forced_movement" }
  else if nm = "Mobile Strike" then some { atype := "active", effect := "attack_and_move" }
  else if nm = "Flying" then some { atype := "passive", effect := "flight" }
  else if nm = "Trample" then some { atype := "active", effect := "trample_attack" }
  else if nm = "Grab" then some { atype := "active", arange := some 2, effect := "pull_attack" }
  else if nm = "Warcry" then some { atype := "active", arange := some 3, effect := "area_buff" }
  else if nm = "Smash" then some { atype := "active", arange := some 1, effect := "area_attack" }
  else none

/-- `SpecialAbilitySystem.is_active_ability`. -/
def is_active_ability (nm : String) : Bool :=
  match get_ability_info nm with
  | some ab => ab.atype == "active"
  | none => false

/-- `SpecialAbilitySystem.can_use_ability`: active abilities require the unit
has not attacked; conditional passives evaluate their condition tag. -/
def can_use_ability (unit : GamePiece) (nm : String) : Bool :=
  match get_ability_info nm with
  | none => false
  | some ab =>
    if ab.atype == "active" then !unit.has_attacked
    else if ab.atype == "conditional_passive" then
      if ab.condition == some "no_movement" then unit.moves_remaining == unit.move
      else if ab.condition == some "no_attack" then !unit.has_attacked
      else true
    else true

/-- The modification record returned by
`SpecialAbilitySystem.apply_passive_effects`. -/
structure Modifications where
  range_bonus : Nat := 0
  move_bonus : Nat := 0
  damage_reduction : Int := 0
  special_movement : List String := []
deriving DecidableEq, Repr

/-- `SpecialAbilitySystem.apply_passive_effects`: Flying grants the "flight"
movement tag; Trusty Steed grants +1 move while the unit has not attacked;
Sword & Board grants 1 damage reduction while the unit has not moved. -/
def apply_passive_effects (unit : GamePiece) : Modifications :=
  let an := ability_name_of unit.special
  match get_ability_info an with
  | none => {}
  | some _ =>
    if an = "Flying" then { special_movement := ["flight"] }
    else if an = "Trusty Steed" && !unit.has_attacked then { move_bonus := 1 }
    else if an = "Sword & Board" && (unit.moves_remaining == unit.move) then
      { damage_reduction := 1 }
    else {}

/-- `get_movement_modifications` helper from `special_abilities.py`. -/
def get_movement_modifications (unit : GamePiece) : Nat × List String :=
  let m := apply_passive_effects unit
  (m.move_bonus, m.special_movement)

/-- `apply_damage_reductions` helper from `special_abilities.py`: Forest
reduces incoming damage by 1, passive ability reductions apply on top, and
the final damage is floored at 1. -/
def apply_damage_reductions (g : Grid) (unit : GamePiece) (incoming : Int) : Int :=
  let d1 := if gridAt g unit.position = Terrain.Forest then incoming - 1 else incoming
  let d2 := d1 - (apply_passive_effects unit).damage_reduction
  max 1 d2

/-! ## Combat resolver (`attack_unit` in `main.py`) -/

/-- The fields of the result dictionary built by `attack_unit`. -/
structure AttackOutcome where
  attacker_name : String
  target_name : String
  damage : Int
  target_remaining_hp : Int
  target_defeated : Bool
  terrain_bonus : Int
  terrain_reduction : Int
  is_ranged : Bool
deriving DecidableEq, Repr

/-- `attack_unit` from `main.py`: validate, compute base damage plus the
Mountain elevation bonus, apply damage reductions, apply the damage, mark
the attacker as having attacked, and delete the target from the registry
when its HP drops to 0 or below. -/
def attack_unit (g : Grid) (units : List GamePiece) (attacker_id : String)
    (target_pos : Pos) : Except String (AttackOutcome × List GamePiece) :=
  match units.find? (fun u => u.unit_id == attacker_id) with
  | none => Except.error "Unknown attacker id"
  | some attacker =>
    if attacker.has_attacked then
      Except.error "Unit has already attacked this turn"
    else
      match units.find? (fun u => u.position == target_pos) with
      | none => Except.error "No target found at specified position"
      | some target =>
        if target.faction == attacker.faction then
          Except.error "Cannot attack friendly units"
        else
          let base_damage := attacker.atk
          let attacker_terrain := gridAt g attacker.position
          let target_terrain := gridAt g target.position
          let damage_bonus : Int :=
            if attacker_terrain = Terrain.Mountain && !(target_terrain = Terrain.Mountain)
            then 1 else 0
          let preliminary_damage := base_damage + damage_bonus
          let final_damage := apply_damage_reductions g target preliminary_damage
          let newHp := target.hp - final_damage
          let dist := chebyshev attacker.position target.position
          let outcome : AttackOutcome :=
            { attacker_name := attacker.name
              target_name := target.name
              damage := final_damage
              target_remaining_hp := newHp
              target_defeated := newHp ≤ 0
              terrain_bonus := damage_bonus
              terrain_reduction := preliminary_damage - final_damage
              is_ranged := 1 < dist }
          let units1 := units.map (fun u =>
            if u.unit_id == target.unit_id then { u with hp := newHp } else u)
          let units2 := units1.map (fun u =>
            if u.unit_id == attacker_id then { u with has_attacked := true } else u)
          let units3 :=
            if newHp ≤ 0 then units2.filter (fun u => !(u.unit_id == target.unit_id))
            else units2
          Except.ok (outcome, units3)

/-! ## Movement calculator (`calculate_legal_moves` in `main.py`) -/

/-- `MOVEMENT_COSTS` from `main.py`; `none` stands for `float('inf')`. -/
def movement_costs : Terrain → Option Nat
  | Terrain.Plains => some 1
  | Terrain.Forest => some 2
  | Terrain.Mountain => some 3
  | Terrain.Lake => none
  | Terrain.River => some 3
  | Terrain.Farm => some 1
  | Terrain.Village => some 1
  | Terrain.City => some 2

/-- Terrain step cost as seen by the search: a "flight" unit skips Lake
entirely and pays a flat 1 elsewhere; anyone else pays the table cost. -/
def step_cost (flight : Bool) (t : Terrain) : Option Nat :=
  if flight then (if t = Terrain.Lake then none else some 1)
  else movement_costs t

/-- The four orthogonal neighbours, in the source's `(-1,0),(1,0),(0,-1),(0,1)`
order. -/
def neighbor4 (p : Pos) : List Pos :=
  [(p.1 - 1, p.2), (p.1 + 1, p.2), (p.1, p.2 - 1), (p.1, p.2 + 1)]

/-- One candidate push of the search: the neighbour must be on the board and
unoccupied, its terrain passable, and the cost affordable from the remaining
budget; the pushed entry carries the new remaining budget. -/
def try_step (g : Grid) (occupied : List Pos) (flight : Bool) (rem : Nat)
    (p : Pos) : Option (Pos × Nat) :=
  if inBounds g p && !occupied.contains p then
    match step_cost flight (gridAt g p) with
    | none => none
    | some c => if c ≤ rem then some (p, rem - c) else none
  else none

/-- Lookup in the legal-moves association list (the Python dict). -/
def lm_lookup (m : List (Pos × Nat)) (p : Pos) : Option Nat :=
  (m.find? (fun kv => kv.1 == p)).map (fun kv => kv.2)

/-- Dict assignment `legal_moves[pos] = cost`: update in place or append. -/
def lm_set (m : List (Pos × Nat)) (p : Pos) (v : Nat) : List (Pos × Nat) :=
  match m with
  | [] => [(p, v)]
  | kv :: rest => if kv.1 == p then (p, v) :: rest else kv :: lm_set rest p v

/-- The `while to_visit:` loop of `calculate_legal_moves`.  The worklist is
kept top-first (Python appends to the end of `to_visit` and pops from the
end, so consing the freshly generated pushes in reverse order reproduces the
same stack discipline).  The `fuel` argument only bounds the number of
iterations; `calculate_legal_moves` passes enough fuel for the loop to run
to completion (see `lm_loop_fuel_stable`). -/
def lm_loop (g : Grid) (occupied : List Pos) (flight : Bool) (startPos : Pos)
    (eff : Nat) : Nat → List (Pos × Nat) → List (Pos × Nat) → List (Pos × Nat)
  | 0, _, legal => legal
  | _ + 1, [], legal => legal
  | fuel + 1, (pos, rem) :: rest, legal =>
    let move_cost := eff - rem
    let record : Bool :=
      if pos == startPos then false
      else
        match lm_lookup legal pos with
        | none => true
        | some old => decide (move_cost < old)
    let legal' := if record then lm_set legal pos move_cost else legal
    let pushes := (neighbor4 pos).filterMap (try_step g occupied flight rem)
    lm_loop g occupied flight startPos eff fuel (pushes.reverse ++ rest) legal'

/-- `calculate_legal_moves` from `main.py`: cost-bounded reachability from
the unit's cell with budget `moves_remaining + move_bonus`, other units'
cells excluded.  `5 ^ eff` dominates the multiset measure `Σ 5 ^ remaining`
of the worklist, which strictly decreases every iteration, so the chosen
fuel is sufficient (`lm_loop_fuel_stable`). -/
def calculate_legal_moves (g : Grid) (units : List GamePiece) (unit : GamePiece) :
    List (Pos × Nat) :=
  let mods := get_movement_modifications unit
  let effective_moves := unit.moves_remaining + mods.1
  let flight := mods.2.contains "flight"
  let occupied := (units.filter (fun u => !(u.unit_id == unit.unit_id))).map (fun u => u.position)
  lm_loop g occupied flight unit.position effective_moves
    (5 ^ effective_moves + 1) [(unit.position, effective_moves)] []

/-! ## Ability resolver (`special_abilities.py`, execution) -/

/-- The `success` / `message` part of an ability result dictionary. -/
structure AbilityResult where
  success : Bool
  message : String
deriving DecidableEq, Repr

/-- Mark a unit in the registry as having attacked
(`unit.has_attacked = True` on the shared object). -/
def set_has_attacked (units : List GamePiece) (uid : String) : List GamePiece :=
  units.map (fun u => if u.unit_id == uid then { u with has_attacked := true } else u)

/-- One step of `_execute_lure` for a single candidate target id: an enemy
within Chebyshev distance 5 is pulled one diagonal-ish step toward the
satyr when the stepped-to cell is on the board and unoccupied. -/
def lure_pull_one (g : Grid) (satyr : GamePiece) (units : List GamePiece)
    (tid : String) : List GamePiece :=
  match units.find? (fun u => u.unit_id == tid) with
  | none => units
  | some target =>
    if target.faction != satyr.faction && chebyshev satyr.position target.position ≤ 5 then
      let dx : Int :=
        if satyr.position.2 > target.position.2 then 1
        else if satyr.position.2 < target.position.2 then -1 else 0
      let dy : Int :=
        if satyr.position.1 > target.position.1 then 1
        else if satyr.position.1 < target.position.1 then -1 else 0
      let new_pos : Pos := (target.position.1 + dy, target.position.2 + dx)
      if inBounds g new_pos && !(units.map (fun u => u.position)).contains new_pos then
        units.map (fun u =>
          if u.unit_id == tid then
            { u with position := new_pos, terrain := gridAt g new_pos }
          else u)
      else units
    else units

/-- `_execute_lure`: iterate over the registry in order, pulling each enemy
in range toward the satyr (occupancy is re-checked against the updated
registry, as in the in-place Python loop). -/
def execute_lure (g : Grid) (satyr : GamePiece) (units : List GamePiece) :
    AbilityResult × List GamePiece :=
  let ids := units.map (fun u => u.unit_id)
  let units' := ids.foldl (lure_pull_one g satyr) units
  ({ success := true, message := "Lured enemy units toward " ++ satyr.name }, units')

/-- `_execute_grab`: find an enemy at the target cell; absent target fails
with "No valid target"; otherwise deal 2 damage and drag the target to the
cell just below the caster.  The defeated-unit case performs no removal. -/
def execute_grab (g : Grid) (unit : GamePiece) (units : List GamePiece)
    (target_pos : Option Pos) : AbilityResult × List GamePiece :=
  let found : Option GamePiece :=
    match target_pos with
    | none => none
    | some tp => units.find? (fun u => u.position == tp && u.faction != unit.faction)
  match found with
  | none => ({ success := false, message := "No valid target" }, units)
  | some target =>
    let adjacent_pos : Pos := (unit.position.1 + 1, unit.position.2)
    let units' := units.map (fun u =>
      if u.unit_id == target.unit_id then
        { u with hp := u.hp - 2, position := adjacent_pos, terrain := gridAt g adjacent_pos }
      else u)
    ({ success := true
       message := unit.name ++ " grabs " ++ target.name ++ " for 2 damage" }, units')

/-- The eight adjacent offsets scanned by `_execute_smash`, in `dr`-major
order with `(0,0)` skipped. -/
def smash_offsets : List (Int × Int) :=
  [(-1, -1), (-1, 0), (-1, 1), (0, -1), (0, 1), (1, -1), (1, 0), (1, 1)]

/-- `_execute_smash`: every enemy on a cell adjacent to the caster takes 2
damage.  Defeated units are NOT removed from the registry (the removal
branch in the source is `pass`). -/
def execute_smash (unit : GamePiece) (units : List GamePiece) :
    AbilityResult × List GamePiece :=
  let units' := smash_offsets.foldl (fun us off =>
    let adjacent_pos : Pos := (unit.position.1 + off.1, unit.position.2 + off.2)
    us.map (fun t =>
      if t.position == adjacent_pos && t.faction != unit.faction then
        { t with hp := t.hp - 2 }
      else t)) units
  ({ success := true
     message := unit.name ++ " smashes nearby enemies for 2 damage each!" }, units')

/-- `_execute_warcry`: reports the allies in range; applies no unit mutation
in the source. -/
def execute_warcry (unit : GamePiece) (units : List GamePiece) :
    AbilityResult × List GamePiece :=
  ({ success := true
     message := unit.name ++ " rallies allies with a mighty warcry!" }, units)

/-- `SpecialAbilitySystem.execute_active_ability`: validate via
`can_use_ability`, mark the caster as having attacked (every ability except
"Trusty Steed" consumes the attack), then dispatch to the ability-specific
handler, whose result dictionary overrides the `success` default. -/
def execute_active_ability (g : Grid) (units : List GamePiece) (uid : String)
    (ability_name : String) (target_pos : Option Pos) :
    AbilityResult × List GamePiece :=
  match units.find? (fun u => u.unit_id == uid) with
  | none => ({ success := false, message := "Cannot use ability" }, units)
  | some unit =>
    if (get_ability_info ability_name).isNone || !can_use_ability unit ability_name then
      ({ success := false, message := "Cannot use ability" }, units)
    else
      let units1 :=
        if ability_name ≠ "Trusty Steed" then set_has_attacked units uid else units
      if ability_name = "Lure" then execute_lure g unit units1
      else if ability_name = "Mobile Strike" then
        ({ success := true, message := unit.name ++ " performs mobile strike" }, units1)
      else if ability_name = "Trample" then
        ({ success := true, message := unit.name ++ " tramples through enemies" }, units1)
      else if ability_name = "Grab" then execute_grab g unit units1 target_pos
      else if ability_name = "Warcry" then execute_warcry unit units1
      else if ability_name = "Smash" then execute_smash unit units1
      else ({ success := true, message := "" }, units1)

/-! ## Turn lifecycle (`end_turn` in `main.py`) -/

/-- Per-unit effect store: `EffectsSystem.unit_effects`, a dict from unit id
to effect list. -/
abbrev EffMap := List (String × List Effect)

/-- Read a unit's effect list (missing key reads as the empty list). -/
def effects_of (m : EffMap) (uid : String) : List Effect :=
  ((m.find? (fun p => p.1 == uid)).map (fun p => p.2)).getD []

/-- Write a unit's effect list (update in place or append the key). -/
def effects_set (m : EffMap) (uid : String) (es : List Effect) : EffMap :=
  match m with
  | [] => [(uid, es)]
  | kv :: rest => if kv.1 == uid then (uid, es) :: rest else kv :: effects_set rest uid es

/-- The "Spotter Bonus" aura effect created by `check_aura_effects`. -/
def spotter_bonus (sid : String) : Effect :=
  { effect_type := EffectType.range_bonus
    name := "Spotter Bonus"
    description := "+1 effective range from Spotter"
    value := 1
    duration := EffectDuration.conditional
    source_unit_id := some sid
    condition := some "within_spotter_range" }

/-- Phase 1 of `check_aura_effects` for one unit: drop every effect carrying
a `source_unit_id` (an aura sourced from another unit). -/
def clear_aura_effects (es : List Effect) : List Effect :=
  let names := es.filterMap (fun e => if e.source_unit_id.isSome then some e.name else none)
  names.foldl (fun l nm => (remove_effect l nm).1) es

/-- `EffectsSystem.check_aura_effects`: clear all aura effects, then re-add
a "Spotter Bonus" to every friendly unit within Chebyshev distance 4 of a
Spotter. -/
def check_aura_effects (units : List GamePiece) (m : EffMap) : EffMap :=
  let m1 := m.map (fun kv => (kv.1, clear_aura_effects kv.2))
  units.foldl (fun acc sp =>
    if containsStr "Spotter" sp.special then
      units.foldl (fun acc2 tg =>
        if tg.faction == sp.faction && !(tg.unit_id == sp.unit_id) &&
           chebyshev sp.position tg.position ≤ 4 then
          effects_set acc2 tg.unit_id
            (add_effect (effects_of acc2 tg.unit_id) (spotter_bonus sp.unit_id))
        else acc2) acc
    else acc) m1

/-- `current_turn = 2 if current_turn == 1 else 1`. -/
def flip_turn (t : Nat) : Nat := if t = 1 then 2 else 1

/-- The faction-membership test of `end_turn`:
`(current_turn == 1 and "A1" in unit_id) or (current_turn == 2 and "A2" in unit_id)`. -/
def side_matches (t : Nat) (uid : String) : Bool :=
  (t == 1 && containsStr "A1" uid) || (t == 2 && containsStr "A2" uid)

/-- `get_max_hp_for_unit` from `main.py`: class lookup with the unit's
current HP as fallback. -/
def get_max_hp_for_unit (u : GamePiece) : Int :=
  if u.unit_class = "Scout" then 7
  else if u.unit_class = "Ranger" then 10
  else if u.unit_class = "Melee" then 15
  else if u.unit_class = "Heavy" then 22
  else if u.unit_class = "Artillery" then 12
  else if u.unit_class = "Leader" then 24
  else u.hp

/-- The farm-healing block of `end_turn`: any unit standing on Farm heals
1 HP, capped at its class maximum.  In the source this block sits OUTSIDE
the new-faction guard of the loop, so it runs for every unit. -/
def farm_heal (u : GamePiece) : GamePiece :=
  if u.terrain = Terrain.Farm then
    let maxHp := get_max_hp_for_unit u
    if u.hp < maxHp then { u with hp := min (u.hp + 1) maxHp } else u
  else u

/-- The per-unit flag reset of `end_turn`, applied only to units of the new
current faction. -/
def reset_for_new_turn (t : Nat) (u : GamePiece) : GamePiece :=
  if side_matches t u.unit_id then
    { u with moves_remaining := u.move, has_attacked := false }
  else u

/-- Match state carried across a turn transition. -/
structure GameState where
  current_turn : Nat
  units : List GamePiece
  effects : EffMap
deriving Repr

/-- `end_turn` from `main.py`: process turn-end effects for the outgoing
faction, flip the turn, reset flags and process turn-start effects for the
incoming faction, heal every unit standing on Farm (the heal is outside the
faction guard in the source), then reconcile conditional and aura effects. -/
def end_turn (st : GameState) : GameState :=
  let effs1 := st.units.foldl (fun m u =>
    if side_matches st.current_turn u.unit_id then
      effects_set m u.unit_id (process_turn_end (effects_of m u.unit_id)).1
    else m) st.effects
  let newTurn := flip_turn st.current_turn
  let units2 := st.units.map (fun u => farm_heal (reset_for_new_turn newTurn u))
  let effs2 := st.units.foldl (fun m u =>
    if side_matches newTurn u.unit_id then
      effects_set m u.unit_id (process_turn_start (effects_of m u.unit_id)).1
    else m) effs1
  let effs3 := units2.foldl (fun m u =>
    effects_set m u.unit_id (check_conditional_effects u (effects_of m u.unit_id))) effs2
  let effs4 := check_aura_effects units2 effs3
  { current_turn := newTurn, units := units2, effects := effs4 }

/-! ## Concrete fixtures used by witnesses and counterexamples -/

/-- 1×2 board: a Mountain cell next to a Forest cell. -/
def gMountainForest : Grid :=
  ⟨1, 2, fun _ c => if c = 0 then Terrain.Mountain else Terrain.Forest⟩

/-- Attacker of the design document's combat scenario: atk 5, on Mountain. -/
def archerFixture : GamePiece :=
  { unit_id := "A1_archer", unit_class := "Ranger", name := "Archer", hp := 10, move := 2,
    moves_remaining := 2, range := 2, atk := 5, special := "Double tap - extra attack",
    position := (0, 0), terrain := Terrain.Mountain, faction := "Kingdom of Cantrell",
    has_attacked := false }

/-- Defender of the combat scenario: on Forest, Sword & Board, unmoved, so it
carries one active damage-reduction effect of magnitude 1. -/
def knightFixture : GamePiece :=
  { unit_id := "A2_knight", unit_class := "Heavy", name := "Knight", hp := 22, move := 2,
    moves_remaining := 2, range := 1, atk := 4, special := "Sword & Board - defensive stance",
    position := (0, 1), terrain := Terrain.Forest, faction := "Horde",
    has_attacked := false }

/-- 1×2 all-Plains board. -/
def gPlainsPair : Grid := ⟨1, 2, fun _ _ => Terrain.Plains⟩

/-- A plain walker with 1 movement point, used for the movement witness. -/
def walkerFixture : GamePiece :=
  { unit_id := "A1_walker", unit_class := "Scout", name := "Walker", hp := 7, move := 4,
    moves_remaining := 1, range := 1, atk := 1, special := "None",
    position := (0, 0), terrain := Terrain.Plains, faction := "Kingdom of Cantrell",
    has_attacked := false }

/-- A timed effect with 2 turns remaining (witness for the countdown). -/
def poisonFixture : Effect :=
  { effect_type := EffectType.damage_over_time, name := "Poison",
    description := "2 damage per turn", value := 2,
    duration := EffectDuration.timed, turns_remaining := 2 }

/-- A timed effect with 1 turn remaining. -/
def stingFixture : Effect :=
  { effect_type := EffectType.damage_over_time, name := "Sting",
    description := "1 damage per turn", value := 1,
    duration := EffectDuration.timed, turns_remaining := 1 }

/-- An until-next-turn effect. -/
def hasteFixture : Effect :=
  { effect_type := EffectType.movement_bonus, name := "Haste",
    description := "+1 movement", value := 1,
    duration := EffectDuration.until_next_turn }

/-- 3×3 all-Plains board. -/
def gPlainsSquare : Grid := ⟨3, 3, fun _ _ => Terrain.Plains⟩

/-- Smash caster at the centre of `gPlainsSquare`. -/
def ogreFixture : GamePiece :=
  { unit_id := "A1_ogre", unit_class := "Heavy", name := "Ogre Brute", hp := 22, move := 2,
    moves_remaining := 2, range := 1, atk := 4, special := "Smash - area attack",
    position := (1, 1), terrain := Terrain.Plains, faction := "Horde",
    has_attacked := false }

/-- A 2-HP enemy adjacent to `ogreFixture`; one Smash reduces it to exactly 0. -/
def scoutFixture : GamePiece :=
  { unit_id := "A2_scout", unit_class := "Scout", name := "Scout", hp := 2, move := 4,
    moves_remaining := 4, range := 1, atk := 1, special := "None",
    position := (1, 2), terrain := Terrain.Plains, faction := "Fae Armies",
    has_attacked := false }

/-- Grab caster with no enemy anywhere (its Grab will find no valid target). -/
def forestLordFixture : GamePiece :=
  { unit_id := "A1_lord", unit_class := "Heavy", name := "Forest Lord", hp := 20, move := 2,
    moves_remaining := 2, range := 1, atk := 4, special := "Grab - pull attack",
    position := (0, 0), terrain := Terrain.Plains, faction := "Fae Armies",
    has_attacked := false }

/-- A faction-1 unit on Farm below its class maximum, with faction 1 about to
END its turn (`current_turn = 1` flips to 2). -/
def farmScoutFixture : GamePiece :=
  { unit_id := "A1_scout", unit_class := "Scout", name := "Farm Scout", hp := 5, move := 4,
    moves_remaining := 0, range := 1, atk := 1, special := "None",
    position := (0, 0), terrain := Terrain.Farm, faction := "Kingdom of Cantrell",
    has_attacked := true }

/-- Game state for the regeneration counterexample: faction 1 is the outgoing
faction of the transition. -/
def farmStateFixture : GameState := ⟨1, [farmScoutFixture], []⟩

/-- 1×3 board Plains / Lake / Plains: a lake strip a flier would want to
cross. -/
def gLakeRow : Grid := ⟨1, 3, fun _ c => if c = 1 then Terrain.Lake else Terrain.Plains⟩

/-- A Flying unit with 3 movement points at the west end of `gLakeRow`. -/
def flyerFixture : GamePiece :=
  { unit_id := "A1_flyer", unit_class := "Scout", name := "Sprite", hp := 7, move := 3,
    moves_remaining := 3, range := 1, atk := 1, special := "Flying - over water",
    position := (0, 0), terrain := Terrain.Plains, faction := "Fae Armies",
    has_attacked := false }

/-- A Trusty Steed unit that has not attacked (witness for the
attack-availability query). -/
def riderFixture : GamePiece :=
  { unit_id := "A1_rider", unit_class := "Scout", name := "Rider", hp := 7, move := 4,
    moves_remaining := 4, range := 1, atk := 1, special := "Trusty Steed - extra move",
    position := (0, 0), terrain := Terrain.Plains, faction := "Kingdom of Cantrell",
    has_attacked := false }

/-! ## Helper lemmas on effect lists -/

theorem get_effect_nil (nm : String) : get_effect [] nm = none := rfl

theorem get_effect_cons (e : Effect) (rest : List Effect) (nm : String) :
    get_effect (e :: rest) nm =
      if e.name == nm then some e else get_effect rest nm := by
  cases he : e.name == nm <;> simp [get_effect, List.find?_cons, he]

theorem remove_effect_cons (e : Effect) (rest : List Effect) (nm : String) :
    remove_effect (e :: rest) nm =
      if e.name == nm then (rest, true)
      else (e :: (remove_effect rest nm).1, (remove_effect rest nm).2) := rfl

theorem update_first_effect_cons (e : Effect) (rest : List Effect) (nm : String)
    (f : Effect → Effect) :
    update_first_effect (e :: rest) nm f =
      if e.name == nm then f e :: rest
      else e :: update_first_effect rest nm f := rfl

theorem update_first_effect_length (l : List Effect) (nm : String) (f : Effect → Effect) :
    (update_first_effect l nm f).length = l.length := by
  induction l with
  | nil => rfl
  | cons e rest ih =>
    rw [update_first_effect_cons]
    split <;> simp [ih]

theorem get_effect_update_first (l : List Effect) (nm : String) (f : Effect → Effect)
    (hf : ∀ e, (f e).name = e.name) :
    get_effect (update_first_effect l nm f) nm = (get_effect l nm).map f := by
  induction l with
  | nil => rfl
  | cons e rest ih =>
    rw [update_first_effect_cons]
    cases he : e.name == nm with
    | true => simp [get_effect_cons, hf e, he]
    | false => simp [get_effect_cons, he, ih]

theorem get_effect_update_first_ne (l : List Effect) (nm m : String) (f : Effect → Effect)
    (hf : ∀ e, (f e).name = e.name) (h : m ≠ nm) :
    get_effect (update_first_effect l nm f) m = get_effect l m := by
  induction l with
  | nil => rfl
  | cons e rest ih =>
    rw [update_first_effect_cons]
    cases he : e.name == nm with
    | true =>
      have hen : e.name = nm := by simpa using he
      have hne : (e.name == m) = false := by simp [hen, Ne.symm h]
      simp [get_effect_cons, hf e, hne]
    | false =>
      cases hm : e.name == m with
      | true => simp [get_effect_cons, hm]
      | false => simp [get_effect_cons, hm, ih]

theorem countP_update_first (l : List Effect) (nm m : String) (f : Effect → Effect)
    (hf : ∀ e, (f e).name = e.name) :
    (update_first_effect l nm f).countP (fun e => e.name == m) =
      l.countP (fun e => e.name == m) := by
  induction l with
  | nil => rfl
  | cons e rest ih =>
    rw [update_first_effect_cons]
    cases he : e.name == nm with
    | true => simp [List.countP_cons, hf e]
    | false => simp [List.countP_cons, ih]

theorem remove_effect_sublist (l : List Effect) (nm : String) :
    (remove_effect l nm).1.Sublist l := by
  induction l with
  | nil => simp [remove_effect]
  | cons e rest ih =>
    rw [remove_effect_cons]
    cases he : e.name == nm with
    | true => simp only [he, if_true]; exact List.sublist_cons_self e rest
    | false =>
      simp only [he, Bool.false_eq_true, if_false]
      exact List.Sublist.cons₂ e ih

theorem countP_remove_le (l : List Effect) (nm : String) (p : Effect → Bool) :
    (remove_effect l nm).1.countP p ≤ l.countP p :=
  List.Sublist.countP_le p (remove_effect_sublist l nm)

theorem get_effect_remove_ne (l : List Effect) (nm m : String) (h : m ≠ nm) :
    get_effect (remove_effect l nm).1 m = get_effect l m := by
  induction l with
  | nil => rfl
  | cons e rest ih =>
    rw [remove_effect_cons]
    cases he : e.name == nm with
    | true =>
      have hen : e.name = nm := by simpa using he
      have hne : (e.name == m) = false := by simp [hen, Ne.symm h]
      simp [get_effect_cons, hne]
    | false =>
      cases hm : e.name == m with
      | true => simp [get_effect_cons, hm]
      | false => simp [get_effect_cons, hm, ih]

theorem get_effect_remove_of_none (l : List Effect) (nm m : String)
    (h : get_effect l m = none) : get_effect (remove_effect l nm).1 m = none := by
  rw [get_effect, List.find?_eq_none] at h ⊢
  intro x hx
  exact h x ((remove_effect_sublist l nm).mem hx)

theorem get_effect_remove_self (l : List Effect) (nm : String)
    (h : l.countP (fun e => e.name == nm) ≤ 1) :
    get_effect (remove_effect l nm).1 nm = none := by
  induction l with
  | nil => rfl
  | cons e rest ih =>
    rw [remove_effect_cons]
    cases he : e.name == nm with
    | true =>
      simp only [he, if_true]
      simp only [List.countP_cons, he, if_true] at h
      have hz : rest.countP (fun e => e.name == nm) = 0 := by omega
      rw [get_effect, List.find?_eq_none]
      intro x hx
      simpa using (List.countP_eq_zero).1 hz x hx
    | false =>
      simp only [he, Bool.false_eq_true, if_false]
      simp only [List.countP_cons, he, Bool.false_eq_true, if_false, Nat.add_zero] at h
      simp [get_effect_cons, he, ih h]

theorem get_effect_append (l l2 : List Effect) (nm : String) :
    get_effect (l ++ l2) nm = (get_effect l nm).or (get_effect l2 nm) := by
  simp [get_effect, List.find?_append]

theorem add_effect_of_absent (l : List Effect) (e : Effect)
    (h : get_effect l e.name = none) : add_effect l e = l ++ [e] := by
  rw [add_effect, h]

theorem add_effect_refresh_name (e : Effect) :
    ∀ y : Effect,
      ((fun ex : Effect =>
        if e.duration = EffectDuration.timed then
          { ex with turns_remaining := max ex.turns_remaining e.turns_remaining }
        else { ex with value := e.value }) y).name = y.name := by
  intro y
  dsimp only
  split <;> rfl

theorem get_effect_add_ne (l : List Effect) (e : Effect) (m : String)
    (h : m ≠ e.name) : get_effect (add_effect l e) m = get_effect l m := by
  rw [add_effect]
  cases hx : get_effect l e.name with
  | none =>
    rw [get_effect_append]
    have : (e.name == m) = false := by simp [Ne.symm h]
    simp [get_effect_cons, get_effect_nil, this]
  | some x =>
    exact get_effect_update_first_ne l e.name m _ (add_effect_refresh_name e) h

theorem countP_add_effect_le (l : List Effect) (e : Effect) (m : String)
    (h : l.countP (fun x => x.name == m) ≤ 1) :
    (add_effect l e).countP (fun x => x.name == m) ≤ 1 := by
  rw [add_effect]
  cases hx : get_effect l e.name with
  | none =>
    cases hm : e.name == m with
    | true =>
      have hem : e.name = m := by simpa using hm
      rw [get_effect, List.find?_eq_none] at hx
      have hz : l.countP (fun x => x.name == m) = 0 := by
        rw [List.countP_eq_zero]
        intro a ha hbad
        exact hx a ha (by simp_all)
      simp [List.countP_append, List.countP_cons, hm, hz]
    | false => simp [List.countP_append, List.countP_cons, hm, h]
  | some x =>
    rw [countP_update_first _ _ _ _ (add_effect_refresh_name e)]
    exact h

theorem mem_unique_get_effect (l : List Effect) (e : Effect)
    (hm : e ∈ l) (hu : l.countP (fun x => x.name == e.name) ≤ 1) :
    get_effect l e.name = some e := by
  induction l with
  | nil => cases hm
  | cons a rest ih =>
    rcases List.mem_cons.1 hm with rfl | hrest
    · simp [get_effect_cons]
    · cases ha : a.name == e.name with
      | true =>
        exfalso
        simp only [List.countP_cons, ha, if_true] at hu
        have hpos : 0 < rest.countP (fun x => x.name == e.name) :=
          List.countP_pos_iff.2 ⟨e, hrest, by simp⟩
        omega
      | false =>
        simp only [List.countP_cons, ha, Bool.false_eq_true, if_false, Nat.add_zero] at hu
        simp [get_effect_cons, ha, ih hrest hu]

/-! ## Claim C3: duplicate-name add refreshes instead of duplicating -/

/-- C3: adding an effect whose name is already present on a unit never
increases the unit's effect count: a timed add sets the existing effect's
remaining turns to the maximum of old and new, any other add overwrites the
existing effect's magnitude, and per-name uniqueness of the effect list is
preserved, so at most one effect with a given name exists per unit. -/
theorem c3_add_effect_dedup (effects : List Effect) (eff ex : Effect)
    (h : get_effect effects eff.name = some ex) :
    (add_effect effects eff).length = effects.length ∧
    (eff.duration = EffectDuration.timed →
      get_effect (add_effect effects eff) eff.name =
        some { ex with turns_remaining := max ex.turns_remaining eff.turns_remaining }) ∧
    (eff.duration ≠ EffectDuration.timed →
      get_effect (add_effect effects eff) eff.name =
        some { ex with value := eff.value }) ∧
    (∀ n, effects.countP (fun e => e.name == n) ≤ 1 →
      (add_effect effects eff).countP (fun e => e.name == n) ≤ 1) := by
  have hadd : add_effect effects eff =
      update_first_effect effects eff.name (fun ex =>
        if eff.duration = EffectDuration.timed then
          { ex with turns_remaining := max ex.turns_remaining eff.turns_remaining }
        else { ex with value := eff.value }) := by
    rw [add_effect, h]
  refine ⟨?_, ?_, ?_, ?_⟩
  · rw [hadd, update_first_effect_length]
  · intro ht
    rw [hadd, get_effect_update_first _ _ _ (add_effect_refresh_name eff), h]
    simp [ht]
  · intro ht
    rw [hadd, get_effect_update_first _ _ _ (add_effect_refresh_name eff), h]
    simp [ht]
  · intro n hn
    exact countP_add_effect_le effects eff n hn

/-- Witness for C3: refreshing a timed "Poison" (2 turns left) with a new
timed "Poison" (1 turn left) keeps one effect and 2 remaining turns. -/
theorem c3_add_effect_dedup_witness :
    (add_effect [poisonFixture] { poisonFixture with turns_remaining := 1 }).length = 1 ∧
    get_effect (add_effect [poisonFixture] { poisonFixture with turns_remaining := 1 })
        "Poison" = some poisonFixture := by
  have h := c3_add_effect_dedup [poisonFixture]
    { poisonFixture with turns_remaining := 1 } poisonFixture (by rfl)
  refine ⟨h.1, ?_⟩
  have h2 := h.2.1 (by rfl)
  exact h2.trans (by rfl)

/-! ## Claim C10: attack availability and the Trusty Steed bonus -/

/-- C10: the attack-availability query returns false for a "Trusty Steed"
unit whenever the "Trusty Steed Bonus" effect is present (even with the
has-attacked flag clear); for every other unit it returns true exactly when
the has-attacked flag is clear. -/
theorem c10_can_unit_attack (u : GamePiece) (effects : List Effect) :
    (containsStr "Trusty Steed" u.special = true →
      (get_effect effects "Trusty Steed Bonus").isSome = true →
      can_unit_attack u effects = false) ∧
    (containsStr "Trusty Steed" u.special = false →
      (can_unit_attack u effects = true ↔ u.has_attacked = false)) := by
  constructor
  · intro hts hp
    rw [can_unit_attack]
    cases ha : u.has_attacked with
    | true => simp
    | false => simp [hts, hp]
  · intro hts
    rw [can_unit_attack]
    cases ha : u.has_attacked with
    | true => simp
    | false => simp [hts]

/-- Witness for C10: a fresh Trusty Steed rider holding the bonus effect
cannot attack despite not having attacked; a plain unit with a clear flag
can. -/
theorem c10_can_unit_attack_witness :
    can_unit_attack riderFixture [trusty_steed_bonus] = false ∧
    can_unit_attack walkerFixture [] = true := by
  constructor
  · exact (c10_can_unit_attack riderFixture [trusty_steed_bonus]).1 (by rfl) (by rfl)
  · exact ((c10_can_unit_attack walkerFixture []).2 (by rfl)).2 rfl

/-! ## Claim C1: damage-reduction arithmetic of the combat resolver -/

/-- C1: for every attack the combat resolver resolves, the reduction
subtracted from the preliminary damage (attack stat plus Mountain elevation
bonus) is the defender's active damage-reduction total as reported by the
ability system plus 1 when the defender stands on Forest, and the final
damage is floored at 1. -/
theorem c1_attack_damage_formula (g : Grid) (units : List GamePiece)
    (aid : String) (tpos : Pos) (attacker target : GamePiece)
    (res : AttackOutcome) (units' : List GamePiece)
    (h1 : units.find? (fun u => u.unit_id == aid) = some attacker)
    (h2 : attacker.has_attacked = false)
    (h3 : units.find? (fun u => u.position == tpos) = some target)
    (h4 : (target.faction == attacker.faction) = false)
    (h5 : attack_unit g units aid tpos = Except.ok (res, units')) :
    res.damage =
      max 1 (attacker.atk
        + (if gridAt g attacker.position = Terrain.Mountain ∧
              gridAt g target.position ≠ Terrain.Mountain then 1 else 0)
        - ((apply_passive_effects target).damage_reduction
           + (if gridAt g target.position = Terrain.Forest then 1 else 0))) := by
  rw [attack_unit] at h5
  rw [h1] at h5
  dsimp only at h5
  rw [h2] at h5
  simp only [Bool.false_eq_true, if_false] at h5
  rw [h3] at h5
  dsimp only at h5
  rw [h4] at h5
  simp only [Bool.false_eq_true, if_false] at h5
  have hpair := Except.ok.inj h5
  have hdmg := congrArg (fun p => p.1.damage) hpair
  dsimp only at hdmg
  rw [← hdmg]
  rw [apply_damage_reductions]
  have hbool : (if (gridAt g attacker.position = Terrain.Mountain &&
        !(gridAt g target.position = Terrain.Mountain) : Bool) then (1 : Int) else 0) =
      (if gridAt g attacker.position = Terrain.Mountain ∧
          gridAt g target.position ≠ Terrain.Mountain then 1 else 0) := by
    by_cases hm : gridAt g attacker.position = Terrain.Mountain ∧
        gridAt g target.position ≠ Terrain.Mountain
    · simp [hm.1, hm.2]
    · rw [if_neg hm]
      push_neg at hm
      by_cases hm1 : gridAt g attacker.position = Terrain.Mountain
      · simp [hm1, hm hm1]
      · simp [hm1]
  rw [hbool]
  by_cases hf : gridAt g target.position = Terrain.Forest
  · simp only [hf, if_true, if_pos rfl]
    congr 1
    ring
  · simp only [hf, if_false, if_neg hf]
    congr 1
    ring

/-- Witness for C1, the design document's scenario: attacker with atk 5 on
Mountain hits a Forest defender carrying one active damage-reduction effect
of magnitude 1 (Sword & Board, unmoved); the final damage is
max(1, 5+1-1-1) = 4. -/
theorem c1_attack_damage_formula_witness :
    ∃ res units',
      attack_unit gMountainForest [archerFixture, knightFixture] "A1_archer"
        ((0 : Int), (1 : Int)) = Except.ok (res, units') ∧ res.damage = 4 := by
  obtain ⟨res, units', h5⟩ :
      ∃ res units', attack_unit gMountainForest [archerFixture, knightFixture]
        "A1_archer" ((0 : Int), (1 : Int)) = Except.ok (res, units') := ⟨_, _, rfl⟩
  have hd := c1_attack_damage_formula gMountainForest [archerFixture, knightFixture]
    "A1_archer" ((0 : Int), (1 : Int)) archerFixture knightFixture res units'
    (by rfl) (by rfl) (by rfl) (by rfl) h5
  refine ⟨res, units', h5, ?_⟩
  rw [hd]
  decide

/-! ## Movement-search lemmas -/

theorem step_cost_pos (flight : Bool) (t : Terrain) (c : Nat)
    (h : step_cost flight t = some c) : 1 ≤ c := by
  cases flight <;> cases t <;>
    simp [step_cost, movement_costs] at h <;> omega

theorem try_step_some (g : Grid) (occupied : List Pos) (flight : Bool) (rem : Nat)
    (p : Pos) (q : Pos × Nat) (h : try_step g occupied flight rem p = some q) :
    q.2 < rem ∧ occupied.contains q.1 = false := by
  rw [try_step] at h
  by_cases hb : (inBounds g p && !occupied.contains p : Bool)
  · rw [if_pos hb] at h
    cases hc : step_cost flight (gridAt g p) with
    | none => rw [hc] at h; cases h
    | some c =>
      rw [hc] at h
      dsimp only at h
      by_cases hcr : c ≤ rem
      · rw [if_pos hcr] at h
        have hq : q = (p, rem - c) := by
          have := h
          injection this with h'
          exact h'.symm
        have hc1 := step_cost_pos flight (gridAt g p) c hc
        have hocc : occupied.contains p = false := by
          simp only [Bool.and_eq_true, Bool.not_eq_true'] at hb
          exact hb.2
        rw [hq]
        exact ⟨by omega, hocc⟩
      · rw [if_neg hcr] at h; cases h
  · rw [if_neg hb] at h; cases h

theorem lm_set_mem (m : List (Pos × Nat)) (p : Pos) (v : Nat) (kv : Pos × Nat)
    (h : kv ∈ lm_set m p v) : kv = (p, v) ∨ kv ∈ m := by
  induction m with
  | nil => simpa [lm_set] using h
  | cons a rest ih =>
    rw [lm_set] at h
    by_cases ha : (a.1 == p : Bool)
    · rw [if_pos ha] at h
      rcases List.mem_cons.1 h with rfl | hm
      · exact Or.inl rfl
      · exact Or.inr (List.mem_cons_of_mem a hm)
    · rw [if_neg ha] at h
      rcases List.mem_cons.1 h with rfl | hm
      · exact Or.inr (List.mem_cons_self _ _)
      · rcases ih hm with h1 | h2
        · exact Or.inl h1
        · exact Or.inr (List.mem_cons_of_mem a h2)

/-- The safety invariant of the search loop: every entry ever recorded in
the legal-moves map is a non-start, unoccupied cell whose recorded cost is
at most the effective movement budget. -/
theorem lm_loop_mem (g : Grid) (occ : List Pos) (flight : Bool) (startPos : Pos)
    (eff : Nat) :
    ∀ (fuel : Nat) (tv : List (Pos × Nat)) (legal : List (Pos × Nat)),
    (∀ e ∈ tv, e.1 = startPos ∨ occ.contains e.1 = false) →
    (∀ kv ∈ legal, kv.1 ≠ startPos ∧ occ.contains kv.1 = false ∧ kv.2 ≤ eff) →
    ∀ kv ∈ lm_loop g occ flight startPos eff fuel tv legal,
      kv.1 ≠ startPos ∧ occ.contains kv.1 = false ∧ kv.2 ≤ eff := by
  intro fuel
  induction fuel with
  | zero => intro tv legal htv hlegal kv hkv; exact hlegal kv hkv
  | succ n ih =>
    intro tv legal htv hlegal kv hkv
    cases tv with
    | nil => exact hlegal kv hkv
    | cons e rest =>
      obtain ⟨pos, rem⟩ := e
      rw [lm_loop] at hkv
      refine ih _ _ ?_ ?_ kv hkv
      · intro e' he'
        rcases List.mem_append.1 he' with hpush | hrest
        · right
          rw [List.mem_reverse] at hpush
          obtain ⟨p', hp', hstep⟩ := List.mem_filterMap.1 hpush
          exact (try_step_some g occ flight rem p' e' hstep).2
        · exact htv e' (List.mem_cons_of_mem _ hrest)
      · intro kv' hkv'
        by_cases hrec : (if pos == startPos then false
            else match lm_lookup legal pos with
                 | none => true
                 | some old => decide (eff - rem < old)) = true
        · rw [if_pos hrec] at hkv'
          rcases lm_set_mem legal pos (eff - rem) kv' hkv' with rfl | hold
          · have hps : (pos == startPos) = false := by
              by_cases h : (pos == startPos : Bool)
              · rw [if_pos h] at hrec; cases hrec
              · simpa using h
            have hpos : pos ≠ startPos := by simpa using hps
            have hocc : occ.contains pos = false := by
              rcases htv (pos, rem) (List.mem_cons_self _ _) with h | h
              · exact absurd h hpos
              · exact h
            exact ⟨hpos, hocc, Nat.sub_le _ _⟩
          · exact hlegal kv' hold
        · rw [if_neg hrec] at hkv'
          exact hlegal kv' hkv'

/-- C2: the legal-moves map never contains the unit's own starting cell,
never contains a cell occupied by another unit, and every recorded
cumulative cost is at most the unit's movement budget (moves remaining plus
the passive movement bonus). -/
theorem c2_legal_moves_sound (g : Grid) (units : List GamePiece) (unit : GamePiece)
    (kv : Pos × Nat) (hkv : kv ∈ calculate_legal_moves g units unit) :
    kv.1 ≠ unit.position ∧
    (∀ u ∈ units, u.unit_id ≠ unit.unit_id → u.position ≠ kv.1) ∧
    kv.2 ≤ unit.moves_remaining + (apply_passive_effects unit).move_bonus := by
  rw [calculate_legal_moves] at hkv
  have h := lm_loop_mem g
    ((units.filter (fun u => !(u.unit_id == unit.unit_id))).map (fun u => u.position))
    ((get_movement_modifications unit).2.contains "flight") unit.position
    (unit.moves_remaining + (get_movement_modifications unit).1)
    (5 ^ (unit.moves_remaining + (get_movement_modifications unit).1) + 1)
    [(unit.position, unit.moves_remaining + (get_movement_modifications unit).1)] []
    (by intro e he; simp only [List.mem_singleton] at he; subst he; left; rfl)
    (by intro kv h; cases h)
    kv hkv
  obtain ⟨hstart, hocc, hle⟩ := h
  refine ⟨hstart, ?_, hle⟩
  intro u hu hne hpos
  have : u.position ∈ (units.filter (fun u => !(u.unit_id == unit.unit_id))).map
      (fun u => u.position) := by
    refine List.mem_map.2 ⟨u, ?_, rfl⟩
    refine List.mem_filter.2 ⟨hu, by simpa using hne⟩
  rw [hpos] at this
  have hc2 : ((units.filter (fun u => !(u.unit_id == unit.unit_id))).map
      (fun u => u.position)).contains kv.1 = true := List.elem_iff.2 this
  rw [hc2] at hocc
  cases hocc

/-- Witness for C2: a walker with 1 movement point on a 1×2 Plains board;
its only legal move is the second cell at cost 1, which satisfies all three
conclusions. -/
theorem c2_legal_moves_sound_witness :
    (((0 : Int), (1 : Int)), 1) ∈ calculate_legal_moves gPlainsPair [walkerFixture] walkerFixture ∧
    (((0 : Int), (1 : Int)) ≠ walkerFixture.position ∧
     (∀ u ∈ [walkerFixture], u.unit_id ≠ walkerFixture.unit_id →
        u.position ≠ ((0 : Int), (1 : Int))) ∧
     1 ≤ walkerFixture.moves_remaining + (apply_passive_effects walkerFixture).move_bonus) := by
  have hmem : ((((0 : Int), (1 : Int)), 1) : Pos × Nat) ∈
      calculate_legal_moves gPlainsPair [walkerFixture] walkerFixture := by decide
  exact ⟨hmem, c2_legal_moves_sound gPlainsPair [walkerFixture] walkerFixture _ hmem⟩

theorem sum_pow5_le (l : List Nat) (b : Nat) (h : ∀ x ∈ l, x ≤ b) :
    (l.map (fun x => 5 ^ x)).sum ≤ l.length * 5 ^ b := by
  induction l with
  | nil => simp
  | cons a t ih =>
    have ha : 5 ^ a ≤ 5 ^ b := Nat.pow_le_pow_right (by norm_num) (h a (by simp))
    have ht := ih (fun x hx => h x (List.mem_cons_of_mem a hx))
    simp only [List.map_cons, List.sum_cons, List.length_cons, Nat.succ_mul]
    omega

theorem sum_pow5_lt (l : List Nat) (r : Nat) (hlen : l.length ≤ 4)
    (h : ∀ x ∈ l, x < r) : (l.map (fun x => 5 ^ x)).sum < 5 ^ r := by
  cases l with
  | nil =>
    simp only [List.map_nil, List.sum_nil]
    exact Nat.pos_pow_of_pos r (by norm_num)
  | cons a t =>
    have hr : 1 ≤ r := Nat.one_le_iff_ne_zero.2 (by
      intro hz
      exact absurd (h a (by simp)) (by omega))
    have hb : ∀ x ∈ a :: t, x ≤ r - 1 := by
      intro x hx
      have := h x hx
      omega
    have hle := sum_pow5_le (a :: t) (r - 1) hb
    have hlt : (a :: t).length * 5 ^ (r - 1) < 5 * 5 ^ (r - 1) := by
      have hpos : 0 < 5 ^ (r - 1) := Nat.pos_pow_of_pos _ (by norm_num)
      have : (a :: t).length < 5 := by
        simp only [List.length_cons] at hlen ⊢
        omega
      exact Nat.mul_lt_mul_of_lt_of_le this (Nat.le_refl _) hpos
    calc ((a :: t).map (fun x => 5 ^ x)).sum
        ≤ (a :: t).length * 5 ^ (r - 1) := hle
      _ < 5 * 5 ^ (r - 1) := hlt
      _ = 5 ^ r := by
          rw [mul_comm, ← Nat.pow_succ]
          congr 1
          omega

theorem pushes_measure_lt (g : Grid) (occ : List Pos) (flight : Bool)
    (pos : Pos) (rem : Nat) :
    ((((neighbor4 pos).filterMap (try_step g occ flight rem)).map
        (fun e => 5 ^ e.2)).sum) < 5 ^ rem := by
  have hconv : (((neighbor4 pos).filterMap (try_step g occ flight rem)).map
        (fun e => 5 ^ e.2)) =
      ((((neighbor4 pos).filterMap (try_step g occ flight rem)).map
        (fun e => e.2)).map (fun x => 5 ^ x)) := by
    rw [List.map_map]
    rfl
  rw [hconv]
  apply sum_pow5_lt
  · rw [List.length_map]
    calc ((neighbor4 pos).filterMap (try_step g occ flight rem)).length
        ≤ (neighbor4 pos).length := List.length_filterMap_le _ _
      _ = 4 := rfl
  · intro x hx
    obtain ⟨e, he, hstep⟩ := List.mem_map.1 hx
    obtain ⟨p', hp', hts⟩ := List.mem_filterMap.1 he
    rw [← hstep]
    exact (try_step_some g occ flight rem p' e hts).1

/-- Fuel irrelevance of the search loop: any fuel strictly above the
multiset measure `Σ 5 ^ remaining` of the worklist produces the same
result, so the canonical fuel `5 ^ budget + 1` used by
`calculate_legal_moves` lets the loop run to completion. -/
theorem lm_loop_fuel_stable (g : Grid) (occ : List Pos) (flight : Bool)
    (startPos : Pos) (eff : Nat) :
    ∀ (f1 f2 : Nat) (tv legal : List (Pos × Nat)),
    (tv.map (fun e => 5 ^ e.2)).sum < f1 →
    (tv.map (fun e => 5 ^ e.2)).sum < f2 →
    lm_loop g occ flight startPos eff f1 tv legal =
      lm_loop g occ flight startPos eff f2 tv legal := by
  intro f1
  induction f1 with
  | zero => intro f2 tv legal h1 h2; exact absurd h1 (Nat.not_lt_zero _)
  | succ n ih =>
    intro f2 tv legal h1 h2
    cases tv with
    | nil =>
      cases f2 with
      | zero => exact absurd h2 (Nat.not_lt_zero _)
      | succ k => rfl
    | cons e rest =>
      obtain ⟨pos, rem⟩ := e
      cases f2 with
      | zero => exact absurd h2 (Nat.not_lt_zero _)
      | succ k =>
        rw [lm_loop, lm_loop]
        have hmnew : ((((neighbor4 pos).filterMap (try_step g occ flight rem)).reverse
              ++ rest).map (fun e => 5 ^ e.2)).sum <
            (((pos, rem) :: rest).map (fun e => 5 ^ e.2)).sum := by
          rw [List.map_append, List.sum_append, List.map_reverse, List.sum_reverse]
          simp only [List.map_cons, List.sum_cons]
          have := pushes_measure_lt g occ flight pos rem
          omega
        apply ih
        · have h1' : (((pos, rem) :: rest).map (fun e => 5 ^ e.2)).sum ≤ n :=
            Nat.lt_succ_iff.1 h1
          omega
        · have h2' : (((pos, rem) :: rest).map (fun e => 5 ^ e.2)).sum ≤ k :=
            Nat.lt_succ_iff.1 h2
          omega

/-! ## Claim C7: flight over impassable terrain (code bug) -/

/-- C7 evaluation: on the Plains/Lake/Plains strip, a Flying unit with 3
movement points gets an EMPTY legal-moves map.  The `continue` in the
flight branch of `calculate_legal_moves` skips Lake cells before they are
enqueued, so a flier can neither end on a Lake cell nor pass over it — the
far Plains cell `(0, 2)` that the claim (and the source's own comment
"Can fly over but not end turn here") says should be reachable at cost 2 is
absent. -/
theorem c7_flight_cannot_cross_lake :
    calculate_legal_moves gLakeRow [flyerFixture] flyerFixture = [] ∧
    lm_lookup (calculate_legal_moves gLakeRow [flyerFixture] flyerFixture)
      ((0 : Int), (2 : Int)) = none := by
  constructor
  · decide
  · decide

/-! ## Claim C4: removal of defeated units (code bug) -/

/-- C4 evaluation: Smash reduces the adjacent 2-HP scout to exactly 0 HP,
yet the scout is still present in the registry after the ability resolves —
`_execute_smash` never removes defeated units (its removal branch is
`pass`), contradicting the claim that every damage-dealing operation
removes units with HP ≤ 0. -/
theorem c4_smash_leaves_defeated_unit :
    ((execute_active_ability gPlainsSquare [ogreFixture, scoutFixture] "A1_ogre"
        "Smash" none).2.find? (fun u => u.unit_id == "A2_scout")).map
          (fun u => u.hp) = some 0 ∧
    (execute_active_ability gPlainsSquare [ogreFixture, scoutFixture] "A1_ogre"
        "Smash" none).1.success = true := by
  constructor
  · decide
  · decide

/-! ## Claim C5: mutation on a "no valid target" failure (corrected) -/

theorem set_has_attacked_map_hp (units : List GamePiece) (uid : String) :
    (set_has_attacked units uid).map (fun u => u.hp) = units.map (fun u => u.hp) := by
  induction units with
  | nil => rfl
  | cons u rest ih =>
    rw [set_has_attacked] at ih ⊢
    simp only [List.map_cons]
    rw [ih]
    split <;> rfl

theorem set_has_attacked_map_position (units : List GamePiece) (uid : String) :
    (set_has_attacked units uid).map (fun u => u.position) =
      units.map (fun u => u.position) := by
  induction units with
  | nil => rfl
  | cons u rest ih =>
    rw [set_has_attacked] at ih ⊢
    simp only [List.map_cons]
    rw [ih]
    split <;> rfl

theorem set_has_attacked_map_id (units : List GamePiece) (uid : String) :
    (set_has_attacked units uid).map (fun u => u.unit_id) =
      units.map (fun u => u.unit_id) := by
  induction units with
  | nil => rfl
  | cons u rest ih =>
    rw [set_has_attacked] at ih ⊢
    simp only [List.map_cons]
    rw [ih]
    split <;> rfl

/-- C5 counterexample: a Grab with no enemy at the target cell returns the
"No valid target" failure, yet the caster's has-attacked flag — false
before the call — is true afterwards, because `execute_active_ability`
marks the caster as having attacked before dispatching to the handler.
This refutes the claim that no unit state is mutated on that failure. -/
theorem c5_no_valid_target_mutates_flag :
    (execute_active_ability gPlainsSquare [forestLordFixture] "A1_lord" "Grab"
        (some ((2 : Int), (2 : Int)))).1 =
      { success := false, message := "No valid target" } ∧
    forestLordFixture.has_attacked = false ∧
    ((execute_active_ability gPlainsSquare [forestLordFixture] "A1_lord" "Grab"
        (some ((2 : Int), (2 : Int)))).2.map (fun u => u.has_attacked)) = [true] := by
  refine ⟨by decide, by decide, by decide⟩

/-- C5 amended: when executing an active ability fails with a "no valid
target" result, no unit's HP or position is mutated and the registry keys
are unchanged, but the caster's has-attacked flag HAS been set — the
post-call registry is exactly the pre-call registry with the caster marked
as having attacked. -/
theorem c5_no_valid_target_amended (g : Grid) (units : List GamePiece)
    (uid aname : String) (tpos : Option Pos) (res : AbilityResult)
    (units' : List GamePiece)
    (h : execute_active_ability g units uid aname tpos = (res, units'))
    (hs : res.success = false)
    (hm : res.message = "No valid target") :
    units' = set_has_attacked units uid ∧
    units'.map (fun u => u.hp) = units.map (fun u => u.hp) ∧
    units'.map (fun u => u.position) = units.map (fun u => u.position) ∧
    units'.map (fun u => u.unit_id) = units.map (fun u => u.unit_id) := by
  rw [execute_active_ability] at h
  cases hfind : units.find? (fun u => u.unit_id == uid) with
  | none =>
    rw [hfind] at h
    cases h
    exact absurd hm (by decide)
  | some unit =>
    rw [hfind] at h
    dsimp only at h
    by_cases hcu : ((get_ability_info aname).isNone || !can_use_ability unit aname : Bool)
    · rw [if_pos hcu] at h
      cases h
      exact absurd hm (by decide)
    · rw [if_neg hcu] at h
      by_cases hl : aname = "Lure"
      · subst hl
        rw [if_pos rfl] at h
        rw [execute_lure] at h
        cases h
        simp at hs
      · rw [if_neg hl] at h
        by_cases hms : aname = "Mobile Strike"
        · subst hms
          rw [if_pos rfl] at h
          cases h
          simp at hs
        · rw [if_neg hms] at h
          by_cases ht : aname = "Trample"
          · subst ht
            rw [if_pos rfl] at h
            cases h
            simp at hs
          · rw [if_neg ht] at h
            by_cases hg : aname = "Grab"
            · subst hg
              rw [if_pos rfl] at h
              rw [if_pos (show ("Grab" : String) ≠ "Trusty Steed" by decide)] at h
              rw [execute_grab.eq_def] at h
              cases htp : tpos with
              | none =>
                rw [htp] at h
                dsimp only at h
                cases h
                exact ⟨rfl, set_has_attacked_map_hp units uid,
                  set_has_attacked_map_position units uid,
                  set_has_attacked_map_id units uid⟩
              | some tp =>
                rw [htp] at h
                dsimp only at h
                cases hfind2 : (set_has_attacked units uid).find?
                    (fun u => u.position == tp && u.faction != unit.faction) with
                | none =>
                  rw [hfind2] at h
                  cases h
                  exact ⟨rfl, set_has_attacked_map_hp units uid,
                    set_has_attacked_map_position units uid,
                    set_has_attacked_map_id units uid⟩
                | some target =>
                  rw [hfind2] at h
                  dsimp only at h
                  cases h
                  simp at hs
            · rw [if_neg hg] at h
              by_cases hw : aname = "Warcry"
              · subst hw
                rw [if_pos rfl] at h
                rw [execute_warcry] at h
                cases h
                simp at hs
              · rw [if_neg hw] at h
                by_cases hsm : aname = "Smash"
                · subst hsm
                  rw [if_pos rfl] at h
                  rw [execute_smash] at h
                  cases h
                  simp at hs
                · rw [if_neg hsm] at h
                  cases h
                  simp at hs

/-- Witness for C5 amended: the Grab-with-no-target call mutates the
registry into exactly the caster-marked registry. -/
theorem c5_no_valid_target_amended_witness :
    (execute_active_ability gPlainsSquare [forestLordFixture] "A1_lord" "Grab"
        (some ((2 : Int), (2 : Int)))).2 =
      set_has_attacked [forestLordFixture] "A1_lord" := by
  have h := c5_no_valid_target_amended gPlainsSquare [forestLordFixture] "A1_lord"
    "Grab" (some ((2 : Int), (2 : Int)))
    (execute_active_ability gPlainsSquare [forestLordFixture] "A1_lord" "Grab"
        (some ((2 : Int), (2 : Int)))).1
    (execute_active_ability gPlainsSquare [forestLordFixture] "A1_lord" "Grab"
        (some ((2 : Int), (2 : Int)))).2
    rfl (by decide) (by decide)
  exact h.1

/-! ## Claim C6: terrain regeneration at the turn boundary (corrected) -/

theorem reset_for_new_turn_hp (t : Nat) (u : GamePiece) :
    (reset_for_new_turn t u).hp = u.hp := by
  rw [reset_for_new_turn]; split <;> rfl

theorem reset_for_new_turn_terrain (t : Nat) (u : GamePiece) :
    (reset_for_new_turn t u).terrain = u.terrain := by
  rw [reset_for_new_turn]; split <;> rfl

theorem reset_for_new_turn_unit_class (t : Nat) (u : GamePiece) :
    (reset_for_new_turn t u).unit_class = u.unit_class := by
  rw [reset_for_new_turn]; split <;> rfl

theorem reset_for_new_turn_unit_id (t : Nat) (u : GamePiece) :
    (reset_for_new_turn t u).unit_id = u.unit_id := by
  rw [reset_for_new_turn]; split <;> rfl

theorem get_max_hp_reset (t : Nat) (u : GamePiece) :
    get_max_hp_for_unit (reset_for_new_turn t u) = get_max_hp_for_unit u := by
  unfold get_max_hp_for_unit
  rw [reset_for_new_turn_unit_class, reset_for_new_turn_hp]

theorem farm_heal_hp (u : GamePiece) :
    (farm_heal u).hp =
      (if u.terrain = Terrain.Farm ∧ u.hp < get_max_hp_for_unit u then
        min (u.hp + 1) (get_max_hp_for_unit u)
      else u.hp) := by
  rw [farm_heal.eq_def]
  by_cases hf : u.terrain = Terrain.Farm
  · simp only [hf, if_pos rfl, true_and]
    by_cases hh : u.hp < get_max_hp_for_unit u
    · simp [hh]
    · simp [hh]
  · simp [hf]

theorem farm_heal_unit_id (u : GamePiece) :
    (farm_heal u).unit_id = u.unit_id := by
  rw [farm_heal.eq_def]
  split
  · dsimp only
    split <;> rfl
  · rfl

theorem farm_heal_reset_hp (t : Nat) (u : GamePiece) :
    (farm_heal (reset_for_new_turn t u)).hp =
      (if u.terrain = Terrain.Farm ∧ u.hp < get_max_hp_for_unit u then
        min (u.hp + 1) (get_max_hp_for_unit u)
      else u.hp) := by
  rw [farm_heal_hp, reset_for_new_turn_terrain, reset_for_new_turn_hp, get_max_hp_reset]

theorem farm_heal_reset_id (t : Nat) (u : GamePiece) :
    (farm_heal (reset_for_new_turn t u)).unit_id = u.unit_id := by
  rw [farm_heal_unit_id, reset_for_new_turn_unit_id]

/-- C6 counterexample: with faction 1 ENDING its turn (`current_turn = 1`),
its Farm-standing scout at 5 HP is healed to 6 by `end_turn`, even though
it belongs to the outgoing faction — refuting the claim that regeneration
applies only to units of the new current faction. -/
theorem c6_outgoing_faction_healed :
    farmStateFixture.current_turn = 1 ∧
    containsStr "A1" farmScoutFixture.unit_id = true ∧
    farmScoutFixture.terrain = Terrain.Farm ∧
    (end_turn farmStateFixture).current_turn = 2 ∧
    (end_turn farmStateFixture).units.map (fun u => u.hp) = [6] := by
  refine ⟨rfl, by decide, rfl, by decide, by decide⟩

/-- C6 amended: during a turn transition, Farm regeneration (heal 1 HP,
capped at the class maximum) is applied to EVERY unit standing on Farm —
units of the incoming and of the outgoing faction alike (the healing block
sits outside the faction guard in `end_turn`). -/
theorem c6_farm_regen_all_units (st : GameState) :
    (end_turn st).units.map (fun u => u.hp) =
      st.units.map (fun u =>
        if u.terrain = Terrain.Farm ∧ u.hp < get_max_hp_for_unit u then
          min (u.hp + 1) (get_max_hp_for_unit u)
        else u.hp) ∧
    (end_turn st).units.map (fun u => u.unit_id) =
      st.units.map (fun u => u.unit_id) := by
  constructor
  · rw [end_turn]
    dsimp only
    rw [List.map_map]
    apply List.map_congr_left
    intro u hu
    exact farm_heal_reset_hp (flip_turn st.current_turn) u
  · rw [end_turn]
    dsimp only
    rw [List.map_map]
    apply List.map_congr_left
    intro u hu
    exact farm_heal_reset_id (flip_turn st.current_turn) u

/-! ## Claim C8: turn-start countdown and expiry -/

theorem foldl_remove_pair_fst (names : List String) (l : List Effect) (ms : List String) :
    (names.foldl
      (fun acc nm => ((remove_effect acc.1 nm).1, acc.2 ++ [nm ++ " effect expired"]))
      (l, ms)).1 =
    names.foldl (fun es nm => (remove_effect es nm).1) l := by
  induction names generalizing l ms with
  | nil => rfl
  | cons nm rest ih => exact ih _ _

theorem foldl_remove_pair_snd (names : List String) (l : List Effect) (ms : List String) :
    (names.foldl
      (fun acc nm => ((remove_effect acc.1 nm).1, acc.2 ++ [nm ++ " effect expired"]))
      (l, ms)).2 =
    ms ++ names.map (fun nm => nm ++ " effect expired") := by
  induction names generalizing l ms with
  | nil => simp
  | cons nm rest ih =>
    simp only [List.foldl_cons, List.map_cons]
    rw [ih]
    simp

theorem get_effect_foldl_remove_not_mem (names : List String) (l : List Effect)
    (m : String) (h : m ∉ names) :
    get_effect (names.foldl (fun es nm => (remove_effect es nm).1) l) m =
      get_effect l m := by
  induction names generalizing l with
  | nil => rfl
  | cons nm rest ih =>
    simp only [List.foldl_cons]
    rw [ih _ (fun hr => h (List.mem_cons_of_mem nm hr))]
    exact get_effect_remove_ne l nm m (fun he => h (he ▸ List.mem_cons_self nm rest))

theorem get_effect_foldl_remove_of_none (names : List String) (l : List Effect)
    (m : String) (h : get_effect l m = none) :
    get_effect (names.foldl (fun es nm => (remove_effect es nm).1) l) m = none := by
  induction names generalizing l with
  | nil => exact h
  | cons nm rest ih =>
    simp only [List.foldl_cons]
    exact ih _ (get_effect_remove_of_none l nm m h)

theorem get_effect_foldl_remove_mem (names : List String) (l : List Effect)
    (m : String) (hm : m ∈ names) (hc : l.countP (fun e => e.name == m) ≤ 1) :
    get_effect (names.foldl (fun es nm => (remove_effect es nm).1) l) m = none := by
  induction names generalizing l with
  | nil => cases hm
  | cons nm rest ih =>
    simp only [List.foldl_cons]
    by_cases he : nm = m
    · subst he
      exact get_effect_foldl_remove_of_none rest _ nm (get_effect_remove_self l nm hc)
    · have hmr : m ∈ rest := by
        rcases List.mem_cons.1 hm with rfl | h
        · exact absurd rfl he
        · exact h
      exact ih _ hmr (Nat.le_trans (countP_remove_le l nm _) hc)

theorem get_effect_map_name_pres (l : List Effect) (f : Effect → Effect)
    (hf : ∀ e, (f e).name = e.name) (n : String) :
    get_effect (l.map f) n = (get_effect l n).map f := by
  induction l with
  | nil => rfl
  | cons e rest ih =>
    simp only [List.map_cons]
    cases he : e.name == n with
    | true => simp [get_effect_cons, hf e, he]
    | false => simp [get_effect_cons, hf e, he, ih]

theorem countP_map_name_pres (l : List Effect) (f : Effect → Effect)
    (hf : ∀ e, (f e).name = e.name) (n : String) :
    (l.map f).countP (fun e => e.name == n) = l.countP (fun e => e.name == n) := by
  induction l with
  | nil => rfl
  | cons e rest ih => simp [List.countP_cons, hf e, ih]

theorem turn_start_decrement_name (e : Effect) :
    ((fun e : Effect =>
      if e.duration = EffectDuration.timed then
        { e with turns_remaining := e.turns_remaining - 1 }
      else e) e).name = e.name := by
  dsimp only
  split <;> rfl

/-- C8: one `process_turn_start` call decrements each timed effect's
remaining turns by exactly 1; an effect whose remaining turns thereby reach
0 is absent from the resulting list and contributes an "expired" message;
every until-next-turn effect is removed unconditionally with the same
message; removals happen after the full scan (the result equals the
decremented scan with the collected names then removed). -/
theorem c8_turn_start_countdown (effects : List Effect) (e : Effect)
    (hmem : e ∈ effects)
    (huniq : ∀ n, effects.countP (fun x => x.name == n) ≤ 1) :
    (e.duration = EffectDuration.timed → 1 < e.turns_remaining →
      get_effect (process_turn_start effects).1 e.name =
        some { e with turns_remaining := e.turns_remaining - 1 }) ∧
    (e.duration = EffectDuration.timed → e.turns_remaining ≤ 1 →
      get_effect (process_turn_start effects).1 e.name = none ∧
      (e.name ++ " effect expired") ∈ (process_turn_start effects).2) ∧
    (e.duration = EffectDuration.until_next_turn →
      get_effect (process_turn_start effects).1 e.name = none ∧
      (e.name ++ " effect expired") ∈ (process_turn_start effects).2) := by
  have h1 : (process_turn_start effects).1 =
      (effects.filterMap (fun e =>
        if e.duration = EffectDuration.timed then
          (if e.turns_remaining - 1 ≤ 0 then some e.name else none)
        else if e.duration = EffectDuration.until_next_turn then some e.name
        else none)).foldl (fun es nm => (remove_effect es nm).1)
        (effects.map (fun e =>
          if e.duration = EffectDuration.timed then
            { e with turns_remaining := e.turns_remaining - 1 }
          else e)) :=
    foldl_remove_pair_fst _ _ _
  have h2 : (process_turn_start effects).2 =
      (effects.filterMap (fun e =>
        if e.effect_type = EffectType.regeneration then
          some ("Unit regenerates " ++ toString e.value ++ " HP")
        else if e.effect_type = EffectType.damage_over_time then
          some ("Unit takes " ++ toString e.value ++ " damage from " ++ e.name)
        else none)) ++
      (effects.filterMap (fun e =>
        if e.duration = EffectDuration.timed then
          (if e.turns_remaining - 1 ≤ 0 then some e.name else none)
        else if e.duration = EffectDuration.until_next_turn then some e.name
        else none)).map (fun nm => nm ++ " effect expired") :=
    foldl_remove_pair_snd _ _ _
  have hget : get_effect effects e.name = some e :=
    mem_unique_get_effect effects e hmem (huniq e.name)
  refine ⟨?_, ?_, ?_⟩
  · intro ht htr
    have hnot : e.name ∉ effects.filterMap (fun e =>
        if e.duration = EffectDuration.timed then
          (if e.turns_remaining - 1 ≤ 0 then some e.name else none)
        else if e.duration = EffectDuration.until_next_turn then some e.name
        else none) := by
      intro hin
      obtain ⟨e', he', hval⟩ := List.mem_filterMap.1 hin
      have hname : e'.name = e.name := by
        by_cases h' : e'.duration = EffectDuration.timed
        · rw [if_pos h'] at hval
          by_cases h'' : e'.turns_remaining - 1 ≤ 0
          · rw [if_pos h''] at hval
            exact Option.some.inj hval
          · rw [if_neg h''] at hval; cases hval
        · rw [if_neg h'] at hval
          by_cases h'' : e'.duration = EffectDuration.until_next_turn
          · rw [if_pos h''] at hval
            exact Option.some.inj hval
          · rw [if_neg h''] at hval; cases hval
      have hee : e' = e := by
        have hg' : get_effect effects e'.name = some e' :=
          mem_unique_get_effect effects e' he' (huniq e'.name)
        rw [hname, hget] at hg'
        exact (Option.some.inj hg').symm
      subst hee
      rw [if_pos ht] at hval
      by_cases h'' : e'.turns_remaining - 1 ≤ 0
      · omega
      · rw [if_neg h''] at hval; cases hval
    rw [h1, get_effect_foldl_remove_not_mem _ _ _ hnot,
      get_effect_map_name_pres _ _ turn_start_decrement_name, hget]
    simp [ht]
  · intro ht htr
    have hin : e.name ∈ effects.filterMap (fun e =>
        if e.duration = EffectDuration.timed then
          (if e.turns_remaining - 1 ≤ 0 then some e.name else none)
        else if e.duration = EffectDuration.until_next_turn then some e.name
        else none) := by
      refine List.mem_filterMap.2 ⟨e, hmem, ?_⟩
      rw [if_pos ht, if_pos (by omega)]
    constructor
    · rw [h1]
      refine get_effect_foldl_remove_mem _ _ _ hin ?_
      rw [countP_map_name_pres _ _ turn_start_decrement_name]
      exact huniq e.name
    · rw [h2]
      exact List.mem_append_right _ (List.mem_map.2 ⟨e.name, hin, rfl⟩)
  · intro ht
    have hin : e.name ∈ effects.filterMap (fun e =>
        if e.duration = EffectDuration.timed then
          (if e.turns_remaining - 1 ≤ 0 then some e.name else none)
        else if e.duration = EffectDuration.until_next_turn then some e.name
        else none) := by
      refine List.mem_filterMap.2 ⟨e, hmem, ?_⟩
      rw [if_neg (by rw [ht]; decide), if_pos ht]
    constructor
    · rw [h1]
      refine get_effect_foldl_remove_mem _ _ _ hin ?_
      rw [countP_map_name_pres _ _ turn_start_decrement_name]
      exact huniq e.name
    · rw [h2]
      exact List.mem_append_right _ (List.mem_map.2 ⟨e.name, hin, rfl⟩)

theorem countP_le_one_of_three (a b c : Effect)
    (hab : a.name ≠ b.name) (hac : a.name ≠ c.name) (hbc : b.name ≠ c.name) :
    ∀ n, List.countP (fun x => x.name == n) [a, b, c] ≤ 1 := by
  intro n
  by_cases h1 : a.name = n <;> by_cases h2 : b.name = n <;> by_cases h3 : c.name = n <;>
    simp_all [List.countP_cons]

/-- Witness for C8: a unit with a timed "Poison" (2 turns), a timed "Sting"
(1 turn) and an until-next-turn "Haste" — after one turn-start call the
Poison stands at 1 turn remaining while Sting and Haste are gone. -/
theorem c8_turn_start_countdown_witness :
    get_effect (process_turn_start [poisonFixture, stingFixture, hasteFixture]).1
        "Poison" = some { poisonFixture with turns_remaining := 1 } ∧
    get_effect (process_turn_start [poisonFixture, stingFixture, hasteFixture]).1
        "Sting" = none ∧
    get_effect (process_turn_start [poisonFixture, stingFixture, hasteFixture]).1
        "Haste" = none := by
  have hu := countP_le_one_of_three poisonFixture stingFixture hasteFixture
    (by decide) (by decide) (by decide)
  have hp := (c8_turn_start_countdown [poisonFixture, stingFixture, hasteFixture]
    poisonFixture (by decide) hu).1 (by decide) (by decide)
  have hs := ((c8_turn_start_countdown [poisonFixture, stingFixture, hasteFixture]
    stingFixture (by decide) hu).2.1 (by decide) (by decide)).1
  have hh := ((c8_turn_start_countdown [poisonFixture, stingFixture, hasteFixture]
    hasteFixture (by decide) hu).2.2 (by decide)).1
  exact ⟨hp.trans (by rfl), hs, hh⟩

/-! ## Claim C9: idempotence of conditional-effect reconciliation -/

theorem countP_add_effect_ne (l : List Effect) (e : Effect) (m : String)
    (h : e.name ≠ m) :
    (add_effect l e).countP (fun x => x.name == m) =
      l.countP (fun x => x.name == m) := by
  rw [add_effect]
  cases hx : get_effect l e.name with
  | none =>
    rw [List.countP_append]
    simp [List.countP_cons, h]
  | some x => exact countP_update_first l e.name m _ (add_effect_refresh_name e)

theorem get_effect_fold_add_ne (adds : List Effect) (l : List Effect) (m : String)
    (h : ∀ a ∈ adds, a.name ≠ m) :
    get_effect (adds.foldl add_effect l) m = get_effect l m := by
  induction adds generalizing l with
  | nil => rfl
  | cons a rest ih =>
    simp only [List.foldl_cons]
    rw [ih _ (fun x hx => h x (List.mem_cons_of_mem a hx))]
    exact get_effect_add_ne l a m (Ne.symm (h a (List.mem_cons_self a rest)))

theorem countP_fold_add_ne (adds : List Effect) (l : List Effect) (m : String)
    (h : ∀ a ∈ adds, a.name ≠ m) :
    (adds.foldl add_effect l).countP (fun x => x.name == m) =
      l.countP (fun x => x.name == m) := by
  induction adds generalizing l with
  | nil => rfl
  | cons a rest ih =>
    simp only [List.foldl_cons]
    rw [ih _ (fun x hx => h x (List.mem_cons_of_mem a hx))]
    exact countP_add_effect_ne l a m (h a (List.mem_cons_self a rest))

theorem ts_adds_ne_sb (u : GamePiece) (effects : List Effect) :
    ∀ a ∈ (if containsStr "Trusty Steed" u.special && !u.has_attacked &&
        (get_effect effects "Trusty Steed Bonus").isNone then
          [trusty_steed_bonus] else []),
      a.name ≠ "Sword & Board Defense" := by
  intro a ha
  split at ha
  · rcases List.mem_singleton.1 ha with rfl
    decide
  · cases ha

theorem sb_adds_ne_ts (u : GamePiece) (effects : List Effect) :
    ∀ a ∈ (if containsStr "Sword & Board" u.special &&
        (u.moves_remaining == u.move) &&
        (get_effect effects "Sword & Board Defense").isNone then
          [sword_board_defense] else []),
      a.name ≠ "Trusty Steed Bonus" := by
  intro a ha
  split at ha
  · rcases List.mem_singleton.1 ha with rfl
    decide
  · cases ha

theorem sb_not_mem_ts_rem (u : GamePiece) (effects : List Effect) :
    "Sword & Board Defense" ∉
      (if containsStr "Trusty Steed" u.special && u.has_attacked &&
          (get_effect effects "Trusty Steed Bonus").isSome then
        ["Trusty Steed Bonus"] else []) := by
  split
  · simp
  · simp

theorem ts_not_mem_sb_rem (u : GamePiece) (effects : List Effect) :
    "Trusty Steed Bonus" ∉
      (if containsStr "Sword & Board" u.special &&
          !(u.moves_remaining == u.move) &&
          (get_effect effects "Sword & Board Defense").isSome then
        ["Sword & Board Defense"] else []) := by
  split
  · simp
  · simp

theorem countP_fold_remove_le (names : List String) (l : List Effect) (p : Effect → Bool) :
    (names.foldl (fun es nm => (remove_effect es nm).1) l).countP p ≤ l.countP p := by
  induction names generalizing l with
  | nil => exact Nat.le_refl _
  | cons nm rest ih =>
    simp only [List.foldl_cons]
    exact Nat.le_trans (ih _) (countP_remove_le l nm p)

theorem cc_sb_some (u : GamePiece) (effects : List Effect)
    (hA : containsStr "Sword & Board" u.special = true)
    (hM : (u.moves_remaining == u.move) = true) :
    (get_effect (check_conditional_effects u effects)
      "Sword & Board Defense").isSome = true := by
  rw [check_conditional_effects, cc_to_add, cc_to_remove]
  simp only [hA, hM, Bool.not_true, Bool.not_false, Bool.true_and, Bool.and_true,
    Bool.false_and, Bool.and_false, Bool.false_eq_true, if_false,
    List.nil_append, List.append_nil, List.foldl_nil]
  rw [get_effect_foldl_remove_not_mem _ _ _ (sb_not_mem_ts_rem u effects)]
  rw [List.foldl_append]
  rw [get_effect_fold_add_ne _ _ _ (ts_adds_ne_sb u effects)]
  by_cases hp : (get_effect effects "Sword & Board Defense").isNone
  · rw [if_pos hp]
    simp only [List.foldl_cons, List.foldl_nil]
    rw [add_effect_of_absent effects sword_board_defense
      (Option.isNone_iff_eq_none.1 hp)]
    rw [get_effect_append, Option.isNone_iff_eq_none.1 hp]
    rfl
  · rw [if_neg hp]
    simp only [List.foldl_nil]
    cases ho : get_effect effects "Sword & Board Defense" with
    | none => rw [ho] at hp; exact absurd rfl hp
    | some x => rfl

theorem cc_sb_none (u : GamePiece) (effects : List Effect)
    (hu : ∀ n, effects.countP (fun x => x.name == n) ≤ 1)
    (hA : containsStr "Sword & Board" u.special = true)
    (hM : (u.moves_remaining == u.move) = false) :
    get_effect (check_conditional_effects u effects) "Sword & Board Defense" = none := by
  rw [check_conditional_effects, cc_to_add, cc_to_remove]
  simp only [hA, hM, Bool.not_true, Bool.not_false, Bool.true_and, Bool.and_true,
    Bool.false_and, Bool.and_false, Bool.false_eq_true, if_false,
    List.nil_append, List.append_nil, List.foldl_nil]
  by_cases hp : (get_effect effects "Sword & Board Defense").isSome
  · rw [if_pos hp]
    rw [List.foldl_append]
    rw [get_effect_foldl_remove_not_mem _ _ _ (sb_not_mem_ts_rem u effects)]
    simp only [List.foldl_cons, List.foldl_nil]
    refine get_effect_remove_self _ _ ?_
    rw [countP_fold_add_ne _ _ _ (ts_adds_ne_sb u effects)]
    exact hu _
  · rw [if_neg hp]
    simp only [List.nil_append]
    rw [get_effect_foldl_remove_not_mem _ _ _ (sb_not_mem_ts_rem u effects)]
    rw [get_effect_fold_add_ne _ _ _ (ts_adds_ne_sb u effects)]
    cases ho : get_effect effects "Sword & Board Defense" with
    | none => rfl
    | some x => rw [ho] at hp; exact absurd rfl hp

theorem cc_ts_some (u : GamePiece) (effects : List Effect)
    (hB : containsStr "Trusty Steed" u.special = true)
    (hK : u.has_attacked = false) :
    (get_effect (check_conditional_effects u effects)
      "Trusty Steed Bonus").isSome = true := by
  rw [check_conditional_effects, cc_to_add, cc_to_remove]
  simp only [hB, hK, Bool.not_true, Bool.not_false, Bool.true_and, Bool.and_true,
    Bool.false_and, Bool.and_false, Bool.false_eq_true, if_false,
    List.nil_append, List.append_nil, List.foldl_nil]
  rw [get_effect_foldl_remove_not_mem _ _ _ (ts_not_mem_sb_rem u effects)]
  rw [List.foldl_append]
  by_cases hq : (get_effect effects "Trusty Steed Bonus").isNone
  · rw [if_pos hq]
    simp only [List.foldl_cons, List.foldl_nil]
    have habs : get_effect ((if containsStr "Sword & Board" u.special &&
        (u.moves_remaining == u.move) &&
        (get_effect effects "Sword & Board Defense").isNone then
          [sword_board_defense] else []).foldl add_effect effects)
        "Trusty Steed Bonus" = none := by
      rw [get_effect_fold_add_ne _ _ _ (sb_adds_ne_ts u effects)]
      exact Option.isNone_iff_eq_none.1 hq
    rw [add_effect_of_absent _ trusty_steed_bonus habs]
    rw [get_effect_append, habs]
    rfl
  · rw [if_neg hq]
    simp only [List.foldl_nil]
    rw [get_effect_fold_add_ne _ _ _ (sb_adds_ne_ts u effects)]
    cases ho : get_effect effects "Trusty Steed Bonus" with
    | none => rw [ho] at hq; exact absurd rfl hq
    | some x => rfl

theorem cc_ts_none (u : GamePiece) (effects : List Effect)
    (hu : ∀ n, effects.countP (fun x => x.name == n) ≤ 1)
    (hB : containsStr "Trusty Steed" u.special = true)
    (hK : u.has_attacked = true) :
    get_effect (check_conditional_effects u effects) "Trusty Steed Bonus" = none := by
  rw [check_conditional_effects, cc_to_add, cc_to_remove]
  simp only [hB, hK, Bool.not_true, Bool.not_false, Bool.true_and, Bool.and_true,
    Bool.false_and, Bool.and_false, Bool.false_eq_true, if_false,
    List.nil_append, List.append_nil, List.foldl_nil]
  by_cases hq : (get_effect effects "Trusty Steed Bonus").isSome
  · rw [if_pos hq]
    rw [List.foldl_append]
    simp only [List.foldl_cons, List.foldl_nil]
    refine get_effect_remove_self _ _ ?_
    refine Nat.le_trans (countP_fold_remove_le _ _ _) ?_
    rw [countP_fold_add_ne _ _ _ (sb_adds_ne_ts u effects)]
    exact hu _
  · rw [if_neg hq]
    simp only [List.append_nil]
    rw [get_effect_foldl_remove_not_mem _ _ _ (ts_not_mem_sb_rem u effects)]
    rw [get_effect_fold_add_ne _ _ _ (sb_adds_ne_ts u effects)]
    cases ho : get_effect effects "Trusty Steed Bonus" with
    | none => rfl
    | some x => rw [ho] at hq; exact absurd rfl hq

/-- C9: conditional-effect reconciliation is idempotent — a second
`check_conditional_effects` call with unchanged unit state leaves the
effect list produced by the first call exactly as it is (assuming the
per-name uniqueness invariant the effects system maintains). -/
theorem c9_reconcile_idempotent (u : GamePiece) (effects : List Effect)
    (hu : ∀ n, effects.countP (fun x => x.name == n) ≤ 1) :
    check_conditional_effects u (check_conditional_effects u effects) =
      check_conditional_effects u effects := by
  have c1 : (containsStr "Sword & Board" u.special &&
      (u.moves_remaining == u.move) &&
      (get_effect (check_conditional_effects u effects)
        "Sword & Board Defense").isNone) = false := by
    cases hA : containsStr "Sword & Board" u.special with
    | false => simp [hA]
    | true =>
      cases hM : (u.moves_remaining == u.move) with
      | false => simp [hM]
      | true =>
        have hs := cc_sb_some u effects hA hM
        cases ho : get_effect (check_conditional_effects u effects)
            "Sword & Board Defense" with
        | none => rw [ho] at hs; exact absurd hs (by decide)
        | some x => simp [hA, hM, ho]
  have c2 : (containsStr "Trusty Steed" u.special && !u.has_attacked &&
      (get_effect (check_conditional_effects u effects)
        "Trusty Steed Bonus").isNone) = false := by
    cases hB : containsStr "Trusty Steed" u.special with
    | false => simp [hB]
    | true =>
      cases hK : u.has_attacked with
      | true => simp [hK]
      | false =>
        have hs := cc_ts_some u effects hB hK
        cases ho : get_effect (check_conditional_effects u effects)
            "Trusty Steed Bonus" with
        | none => rw [ho] at hs; exact absurd hs (by decide)
        | some x => simp [hB, hK, ho]
  have c3 : (containsStr "Sword & Board" u.special &&
      !(u.moves_remaining == u.move) &&
      (get_effect (check_conditional_effects u effects)
        "Sword & Board Defense").isSome) = false := by
    cases hA : containsStr "Sword & Board" u.special with
    | false => simp [hA]
    | true =>
      cases hM : (u.moves_remaining == u.move) with
      | true => simp [hM]
      | false =>
        have hn := cc_sb_none u effects hu hA hM
        simp [hn]
  have c4 : (containsStr "Trusty Steed" u.special && u.has_attacked &&
      (get_effect (check_conditional_effects u effects)
        "Trusty Steed Bonus").isSome) = false := by
    cases hB : containsStr "Trusty Steed" u.special with
    | false => simp [hB]
    | true =>
      cases hK : u.has_attacked with
      | false => simp [hK]
      | true =>
        have hn := cc_ts_none u effects hu hB hK
        simp [hn]
  conv_lhs => rw [check_conditional_effects]
  rw [cc_to_add, cc_to_remove, c1, c2, c3, c4]
  simp

/-- Witness for C9: a Sword & Board knight with an empty effect list — the
first reconciliation adds the defense effect and a second changes nothing. -/
theorem c9_reconcile_idempotent_witness :
    check_conditional_effects knightFixture
        (check_conditional_effects knightFixture []) =
      check_conditional_effects knightFixture [] := by
  exact c9_reconcile_idempotent knightFixture [] (fun n => by simp)
